import Mathlib

/-! Klingel: doorbell pulse decoder, door control loop and serial console.

A shallow embedding of `src/main.c` (ATmega firmware).  The firmware is a single
polling loop over hardware registers plus a receive interrupt; here the registers the program writes
(`PORTB`, `PORTC`, `TCNT1`) and the program variables are fields of `State`, the
values the hardware supplies on a read (`PINC` samples, timer ticks counted since
the previous access of `TCNT1`) are fields of `Input`, and everything the program
sends or waits for is appended to a trace of `Ev`.

Machine widths: `uint8_t` values are reduced `% 256`, `uint16_t` values `% 65536`.
-/

namespace Klingel

/-! ## Constants (`#define`s of main.c, lines 8-17) -/

def HZ : Nat := 15625
def TIMEOUT_SEC : Nat := 4
def MIN_PULSE_WIDTH_MS : Nat := 10
def RING_DURATION_SEC : Nat := 20
def OPEN_DURATION_SEC : Nat := 3
def THURSDAY_TIMEOUT_MIN : Nat := 300
def THURSDAY_OPEN_DELAY : Nat := 750
def PRESSED_MIN_MS : Nat := 50
def RELEASED_MIN_MS : Nat := 50

/-! ## Observable events -/

/-- The notification lines sent with `tx_str`: the constructor is the four-letter code
that starts the line (`"OPEN Manual open\r\n"` is `OPEN`, and so on). -/
inductive Note where
  | THUA | RING | CODE | THU1 | THU0 | BOOT | OPEN | TOUT
  deriving DecidableEq, Repr

/-- What one step of the program does besides changing `State`:
`tx n` is `tx_str` of the notification line `n`, `help` is a call of `tx_help`,
`delay ms` is `_delay_ms(ms)`, and `openCall`, `ringCall`, `setThu mode` mark the entry
into `open()`, `ring()` and `set_thursday_mode(mode)`. -/
inductive Ev where
  | tx (n : Note)
  | help
  | delay (ms : Nat)
  | openCall
  | ringCall
  | setThu (mode : Nat)
  deriving DecidableEq, Repr

/-! ## Program state and hardware inputs -/

/-- Program variables and written registers.
`pattern`, `pidx`, `thursday_toggle_timeout`, `codefail` are the locals of `main`
(lines 148-151); `global_thursday_mode`, `global_thursday_timectr_sec` the globals
(lines 19-20); `TCNT1` is the 16-bit timer as of its last read or write by the
program; `PORTB`, `PORTC` are the output registers. -/
structure State where
  pattern : Fin 7 → Nat
  pidx : Nat
  thursday_toggle_timeout : Nat
  codefail : Nat
  global_thursday_mode : Nat
  global_thursday_timectr_sec : Nat
  TCNT1 : Nat
  PORTB : Nat
  PORTC : Nat

/-- What the hardware supplies during one iteration of the `for (;;)` loop.
* `pinc_open`: `PINC` as read by `handle_open_button` at line 153;
* `pinc_thu`: `PINC` as read at line 154;
* `ticks159`: timer ticks counted since the program last read or wrote `TCNT1`, up to
  the read at line 159;
* `ring_open i`, `ring_bell i`: `PINC` as read in the `i`-th evaluation of the loop
  condition of `ring()` (line 71), by `handle_open_button` and by `PINC&1`;
* `pinc_bell`: `PINC` as read at line 173;
* `ticks179`: timer ticks counted between the read at line 159 and the one at line 179. -/
structure Input where
  pinc_open : Nat
  pinc_thu : Nat
  ticks159 : Nat
  ring_open : Nat → Nat
  ring_bell : Nat → Nat
  pinc_bell : Nat
  ticks179 : Nat

/-- State on entry to the `for (;;)` loop (lines 19-20, 135-151): the locals
`pidx`, `thursday_toggle_timeout`, `codefail` and both globals are 0, `PORTC` holds the
pull-up bits `0x01 | 0x08 | 0x20`, `PORTB` and the timer register their reset value 0.
`pattern` is declared without initialiser, so its contents `garbage` are whatever the
stack holds. -/
def init (garbage : Fin 7 → Nat) : State :=
  { pattern := garbage
    pidx := 0
    thursday_toggle_timeout := 0
    codefail := 0
    global_thursday_mode := 0
    global_thursday_timectr_sec := 0
    TCNT1 := 0
    PORTB := 0
    PORTC := 0x29 }

/-! ## Door control sequencer -/

/-- The `for` loop of `open()` (lines 52-55) with `n` rounds to go:
`PORTB ^= 0x20; _delay_ms(250);`. -/
def blink : Nat → State → State × List Ev
  | 0, s => (s, [])
  | n + 1, s =>
    let r := blink n { s with PORTB := s.PORTB ^^^ 0x20 }
    (r.1, Ev.delay 250 :: r.2)

/-- The function `open()` (lines 49-57); `open` is a reserved word in Lean. -/
def open_ (s : State) : State × List Ev :=
  let r := blink (4 * OPEN_DURATION_SEC) { s with PORTC := s.PORTC ||| 0x02 }
  ({ r.1 with PORTC := r.1.PORTC &&& 0xFD }, Ev.openCall :: r.2)

/-- The function `handle_open_button()` (lines 59-65), given the `PINC` sample it reads.
Returns the C return value, the new state and the trace. -/
def handle_open_button (pinc : Nat) (s : State) : Nat × State × List Ev :=
  if pinc &&& 0x20 ≠ 0 then (0, s, [])
  else
    let r := open_ s
    (1, r.1, Ev.tx Note.OPEN :: r.2)

/-- The `for` loop of `ring()` (lines 71-72) with `n` = `RING_DURATION_SEC*100 - i`
rounds to go: the condition `i < 2000 && !handle_open_button() && (PINC&1)` is evaluated
left to right, and each round that passes it runs `_delay_ms(10)`. -/
def ringLoop (btn bell : Nat → Nat) : Nat → Nat → State → State × List Ev
  | 0, _, s => (s, [])
  | n + 1, i, s =>
    let h := handle_open_button (btn i) s
    if h.1 ≠ 0 then (h.2.1, h.2.2)
    else if bell i &&& 1 = 0 then (h.2.1, h.2.2)
    else
      let r := ringLoop btn bell n (i + 1) h.2.1
      (r.1, h.2.2 ++ Ev.delay 10 :: r.2)

/-- The function `ring()` (lines 67-75). -/
def ring (btn bell : Nat → Nat) (s : State) : State × List Ev :=
  let s1 := { s with PORTB := s.PORTB ||| 0x20 }
  let s2 := { s1 with PORTC := s1.PORTC ||| 0x04 }
  let r := ringLoop btn bell (RING_DURATION_SEC * 100) 0 s2
  let s3 := { r.1 with PORTB := r.1.PORTB &&& 0xDF }
  ({ s3 with PORTC := s3.PORTC &&& 0xFB }, Ev.ringCall :: Ev.tx Note.RING :: r.2)

/-- The function `code()` (lines 77-80). -/
def code (s : State) : State × List Ev :=
  let r := open_ s
  (r.1, Ev.tx Note.CODE :: r.2)

/-! ## Thursday mode controller -/

/-- The function `set_thursday_mode(mode)` (lines 82-92). -/
def set_thursday_mode (mode : Nat) (s : State) : State × List Ev :=
  let s1 := { s with global_thursday_mode := mode, global_thursday_timectr_sec := 0 }
  let n := if mode ≠ 0 then Note.THU1 else Note.THU0
  let s2 := if mode ≠ 0 then { s1 with PORTC := s1.PORTC ||| 0x10 }
            else { s1 with PORTC := s1.PORTC &&& 0xEF }
  (s2, [Ev.setThu mode, Ev.tx n])

/-! ## Main dispatch loop -/

/-- A read of the free-running 16-bit timer `TCNT1` after `ticks` more ticks. -/
def readTCNT1 (ticks : Nat) (s : State) : State :=
  { s with TCNT1 := (s.TCNT1 + ticks) % 65536 }

/-- `pattern[i] = v` on the 7-slot array; an index outside the array leaves the model's
array as it is (in C the write would be out of bounds). -/
def store (p : Fin 7 → Nat) (i v : Nat) : Fin 7 → Nat :=
  if h : i < 7 then Function.update p ⟨i, h⟩ v else p

/-- The condition of the thursday button (line 154): `!(PINC&0x08) && !thursday_toggle_timeout`. -/
def toggleFires (inp : Input) (s : State) : Bool :=
  decide (inp.pinc_thu &&& 0x08 = 0) && decide (s.thursday_toggle_timeout = 0)

/-- Lines 154-158: the thursday toggle poll, `set_thursday_mode(!global_thursday_mode)`
under the latch. -/
def pollThursday (inp : Input) (s : State) : State × List Ev :=
  if toggleFires inp s then
    let r := set_thursday_mode (if s.global_thursday_mode = 0 then 1 else 0) s
    ({ r.1 with thursday_toggle_timeout := 1, TCNT1 := 0 }, r.2)
  else (s, [])

/-- Lines 153-158: the manual-open poll, then the thursday toggle poll. -/
def pollButtons (inp : Input) (s : State) : State × List Ev :=
  let h := handle_open_button inp.pinc_open s
  let t := pollThursday inp h.2.1
  (t.1, h.2.2 ++ t.2)

/-- The code test of lines 185-190 on the pattern buffer. -/
def codeOk (p : Fin 7 → Nat) : Bool :=
  decide (PRESSED_MIN_MS * HZ / 1000 ≤ p 1) &&
  decide (RELEASED_MIN_MS * HZ / 1000 ≤ p 2) &&
  decide (PRESSED_MIN_MS * HZ / 1000 ≤ p 3) &&
  decide (RELEASED_MIN_MS * HZ / 1000 ≤ p 4) &&
  decide (PRESSED_MIN_MS * HZ / 1000 ≤ p 5) &&
  decide (RELEASED_MIN_MS * HZ / 1000 ≤ p 6)

/-- The timeout branch (lines 160-171), entered after the read of line 159. -/
def timeoutBranch (inp : Input) (s : State) : State × List Ev :=
  let r := if s.pidx ≠ 0 ∨ s.codefail ≠ 0 then ring inp.ring_open inp.ring_bell s else (s, [])
  let s1 := { r.1 with pidx := 0, codefail := 0, thursday_toggle_timeout := 0, TCNT1 := 0 }
  let s2 := { s1 with global_thursday_timectr_sec :=
                (s1.global_thursday_timectr_sec + TIMEOUT_SEC) % 65536 }
  if s2.global_thursday_timectr_sec ≥ THURSDAY_TIMEOUT_MIN * 60 then
    let q := set_thursday_mode 0 s2
    (q.1, r.2 ++ Ev.tx Note.TOUT :: q.2)
  else (s2, r.2)

/-- The pattern decoder (lines 178-196), entered when `st == (pidx&1)`. -/
def decoder (inp : Input) (s : State) : State × List Ev :=
  let s1 := readTCNT1 inp.ticks179 s
  let val := s1.TCNT1
  if val > HZ * MIN_PULSE_WIDTH_MS / 1000 then
    let s2 := { s1 with pattern := store s1.pattern s1.pidx val,
                        pidx := (s1.pidx + 1) % 256, TCNT1 := 0 }
    if s2.pidx = 7 - 1 then
      let s3 := { s2 with pidx := 0 }
      if codeOk s3.pattern then
        let r := code s3
        ({ r.1 with codefail := 0 }, r.2)
      else ({ s3 with codefail := 1 }, [])
    else (s2, [])
  else (s1, [])

/-- The `else` branch of the timeout test (lines 173-196). -/
def elseBranch (inp : Input) (s : State) : State × List Ev :=
  let st := inp.pinc_bell &&& 1
  if s.global_thursday_mode ≠ 0 ∧ st = 0 then
    let r := open_ s
    (r.1, Ev.tx Note.THUA :: Ev.delay THURSDAY_OPEN_DELAY :: r.2)
  else if st = s.pidx &&& 1 then decoder inp s
  else (s, [])

/-- The timeout test of line 159 on the timer value just read: `TCNT1 > TIMEOUT_SEC*HZ`. -/
def timedOut (s : State) : Bool := decide (s.TCNT1 > TIMEOUT_SEC * HZ)

/-- Lines 159-197: read the timer and take the timeout branch or the `else` branch. -/
def dispatch (inp : Input) (s : State) : State × List Ev :=
  let s1 := readTCNT1 inp.ticks159 s
  if timedOut s1 then timeoutBranch inp s1 else elseBranch inp s1

/-- One iteration of the `for (;;)` loop of `main` (lines 153-197). -/
def main_loop (inp : Input) (s : State) : State × List Ev :=
  let p := pollButtons inp s
  let d := dispatch inp p.1
  (d.1, p.2 ++ d.2)

/-- The clock value the timeout test of line 159 sees in the iteration on `inp` from `s`. -/
def reading159 (inp : Input) (s : State) : Nat :=
  (readTCNT1 inp.ticks159 (pollButtons inp s).1).TCNT1

/-- Successive iterations of the loop on the inputs `is`, traces concatenated. -/
def run : State → List Input → State × List Ev
  | s, [] => (s, [])
  | s, i :: is =>
    let r := main_loop i s
    let q := run r.1 is
    (q.1, r.2 ++ q.2)

/-! ## Auxiliary notions used in the statements -/

/-- The state `s'` agrees with `s` on every program variable and on the timer: at most the
output registers `PORTB`, `PORTC` differ. -/
def PortsOnly (s s' : State) : Prop :=
  s'.pattern = s.pattern ∧ s'.pidx = s.pidx ∧
  s'.thursday_toggle_timeout = s.thursday_toggle_timeout ∧ s'.codefail = s.codefail ∧
  s'.global_thursday_mode = s.global_thursday_mode ∧
  s'.global_thursday_timectr_sec = s.global_thursday_timectr_sec ∧ s'.TCNT1 = s.TCNT1

/-- An input with no button pressed (`PINC` bits 5 and 3 high), the doorbell line at level
`bell` (bit 0) throughout, and `ticks` timer ticks counted up to the timeout test. -/
def quiet (bell ticks : Nat) : Input :=
  { pinc_open := 0x28 ||| bell
    pinc_thu := 0x28 ||| bell
    ticks159 := ticks
    ring_open := fun _ => 0x28 ||| bell
    ring_bell := fun _ => 0x28 ||| bell
    pinc_bell := 0x28 ||| bell
    ticks179 := 0 }

/-- Six iterations in which the doorbell line alternates pressed (0), released (1), each
level first seen 937 ticks (60 ms) after the previous accepted sample. -/
def sixPulses : List Input :=
  [quiet 0 937, quiet 1 937, quiet 0 937, quiet 1 937, quiet 0 937, quiet 1 937]

/-- The state after one accepted press from loop entry: the doorbell went low 200 ticks
after boot, so one sample is buffered (`pidx = 1`) and the clock was reset. -/
def onePress : State := (main_loop (quiet 0 200) (init fun _ => 0)).1

/-- The state after the first five accepted samples of `sixPulses` (`pidx = 5`). -/
def fivePulses : State := (run (init fun _ => 0) (sixPulses.take 5)).1

/-- The clock value the decoder takes as `val` at line 179 in the iteration on `inp`
from `s`. -/
def reading179 (inp : Input) (s : State) : Nat :=
  (readTCNT1 inp.ticks179 (readTCNT1 inp.ticks159 (pollButtons inp s).1)).TCNT1

/-- An input like `quiet bell ticks` but with the manual-open button sampled pressed
(`PINC` bit 5 low) at the loop head. -/
def openPressed (bell ticks : Nat) : Input :=
  { quiet bell ticks with pinc_open := 0x08 ||| bell }

/-- An input like `quiet bell ticks` but with the thursday toggle button sampled pressed
(`PINC` bit 3 low) at line 154. -/
def togglePressed (bell ticks : Nat) : Input :=
  { quiet bell ticks with pinc_thu := 0x20 ||| bell }

/-- Whether the iteration on `inp` from `s` takes the timeout branch of line 159. -/
def timesOut (inp : Input) (s : State) : Bool :=
  timedOut (readTCNT1 inp.ticks159 (pollButtons inp s).1)

/-- Whether the toggle path of line 154 fires in the iteration on `inp` from `s`
(`handle_open_button` before it does not touch the latch). -/
def toggles (inp : Input) (s : State) : Bool :=
  toggleFires inp (handle_open_button inp.pinc_open s).2.1

/-- Number of iterations of `run s is` that take the timeout branch. -/
def timeouts : State → List Input → Nat
  | _, [] => 0
  | s, i :: is => (if timesOut i s then 1 else 0) + timeouts (main_loop i s).1 is

/-- Number of iterations of `run s is` in which the toggle path fires. -/
def toggleCount : State → List Input → Nat
  | _, [] => 0
  | s, i :: is => (if toggles i s then 1 else 0) + toggleCount (main_loop i s).1 is

/-- Entry markers of `set_thursday_mode`. -/
def isSetThu : Ev → Bool
  | Ev.setThu _ => true
  | _ => false

/-- The four actions the receive interrupt can invoke (lines 106-113). -/
inductive Command where
  | open_ | help | thursday_on | thursday_off
  deriving DecidableEq, Repr

/-- What the receive interrupt does to the program state once it has recognised a
command (lines 106-113): `open()`, `tx_help()`, `set_thursday_mode(1)`,
`set_thursday_mode(0)`. -/
def console : Command → State → State × List Ev
  | Command.open_, s => open_ s
  | Command.help, s => (s, [Ev.help])
  | Command.thursday_on, s => set_thursday_mode 1 s
  | Command.thursday_off, s => set_thursday_mode 0 s

/-- States at main-loop iteration boundaries reachable from startup: loop entry with any
stack contents in `pattern`, then any sequence of loop iterations on any inputs and of
console commands, each taken as one atomic step between iterations. -/
inductive Reachable : State → Prop where
  | start (garbage : Fin 7 → Nat) : Reachable (init garbage)
  | loop (inp : Input) {s : State} : Reachable s → Reachable (main_loop inp s).1
  | command (c : Command) {s : State} : Reachable s → Reachable (console c s).1

/-- The state after the console command `thursday on` at loop entry. -/
def thursdayOn : State := (console Command.thursday_on (init fun _ => 0)).1

/-- The state after a press of the doorbell is accepted (one sample buffered) and the
thursday toggle button is then pressed while the doorbell line is back high: thursday
mode is on with `pidx = 1`. -/
def toggledMidAttempt : State :=
  (main_loop (togglePressed 1 0) (main_loop (quiet 0 200) (init fun _ => 0)).1).1

/-- Events of the door control sequencer and the decoder: delays, the entry markers of
`open()` and `ring()`, and the notifications `OPEN`, `RING`, `CODE`, `THUA`; not the
events of the thursday mode controller (`setThu`, `THU1`, `THU0`, `TOUT`). -/
def doorEvent : Ev → Bool
  | Ev.delay _ => true
  | Ev.openCall => true
  | Ev.ringCall => true
  | Ev.tx Note.OPEN => true
  | Ev.tx Note.RING => true
  | Ev.tx Note.CODE => true
  | Ev.tx Note.THUA => true
  | _ => false

/-- The idle timeout input: no button pressed, doorbell line high, and the clock read
62501 ticks after its last reset. -/
def idleTimeout : Input := quiet 1 62501

/-- Samples of `PINC` inside `ring()`: the manual-open button reads pressed (bit 5 low) at
poll 3 and not pressed before and after. -/
def pressAtThird (i : Nat) : Nat := if i = 3 then 0x09 else 0x29

/-- Samples of the doorbell line inside `ring()`: high (idle) at polls 0 and 1, low
(pressed) from poll 2 on; the buttons read not pressed. -/
def bellLowFromSecond (i : Nat) : Nat := if i < 2 then 0x29 else 0x28

/-- The opener-relay bit `0x02` of `PORTC` is clear. -/
def RelayOff (s : State) : Prop := s.PORTC &&& 0x02 = 0

/-- One atomic step of an execution: a main-loop iteration on some input, or a console
command carried out between two iterations. -/
inductive Step where
  | iter (inp : Input)
  | cmd (c : Command)

/-- The state after one step. -/
def step : Step → State → State
  | Step.iter inp, s => (main_loop inp s).1
  | Step.cmd c, s => (console c s).1

/-- The state after a sequence of steps. -/
def exec : State → List Step → State
  | s, [] => s
  | s, t :: ts => exec (step t s) ts

/-- The thursday flag is 0 or 1 and the indicator bit `0x10` of `PORTC` shows it. -/
def IndicatorOk (s : State) : Prop :=
  (s.global_thursday_mode = 0 ∧ s.PORTC &&& 0x10 = 0) ∨
  (s.global_thursday_mode = 1 ∧ s.PORTC &&& 0x10 = 0x10)

/-- The state `s'` has the thursday flag and the indicator bit of `s`. -/
def SameIndicator (s s' : State) : Prop :=
  s'.global_thursday_mode = s.global_thursday_mode ∧ s'.PORTC &&& 0x10 = s.PORTC &&& 0x10

/-! ## Serial console: the receive interrupt -/

/-- The statics of `ISR(USART_RX_vect)` (lines 95-96): the write index and the 16-byte
line buffer.  Bytes are numbers; `'\r'` is 13 and `'\n'` is 10. -/
structure Rx where
  idx : Nat
  rxbuf : Fin 16 → Nat

/-- The statics at startup: C zero-initialises them. -/
def rxStart : Rx := { idx := 0, rxbuf := fun _ => 0 }

/-- The byte `rxbuf[i]`; the model gives 0 for an index outside the array (`strcmp`
against the literals below stops at index 13 at the latest). -/
def peek (buf : Fin 16 → Nat) (i : Nat) : Nat :=
  if h : i < 16 then buf ⟨i, h⟩ else 0

/-- The test `!strcmp(lit, rxbuf + i)` for a literal `lit` of nonzero bytes: the buffer
holds the bytes of `lit` from index `i` on, followed by the terminating 0. -/
def strcmp0 : List Nat → (Fin 16 → Nat) → Nat → Bool
  | [], buf, i => peek buf i == 0
  | c :: cs, buf, i => peek buf i == c && strcmp0 cs buf (i + 1)

/-- The bytes of `open`. -/
def cmd_open : List Nat := [111, 112, 101, 110]

/-- The bytes of `help`. -/
def cmd_help : List Nat := [104, 101, 108, 112]

/-- The bytes of `thursday on`. -/
def cmd_thursday_on : List Nat := [116, 104, 117, 114, 115, 100, 97, 121, 32, 111, 110]

/-- The bytes of `thursday off`. -/
def cmd_thursday_off : List Nat :=
  [116, 104, 117, 114, 115, 100, 97, 121, 32, 111, 102, 102]

/-- Lines 99-102: store the received byte if the buffer has room, else mark the line as
overflowed with `idx = 255`. -/
def put (ch : Nat) (r : Rx) : Rx :=
  if h : r.idx < 16 then
    { idx := (r.idx + 1) % 256, rxbuf := Function.update r.rxbuf ⟨r.idx, h⟩ ch }
  else { r with idx := 255 }

/-- Lines 106-113: the chain of `strcmp` tests against `"open\r"`, `"help\r"`,
`"thursday on\r"`, `"thursday off\r"`. -/
def recognise (buf : Fin 16 → Nat) : Option Command :=
  if strcmp0 (cmd_open ++ [13]) buf 0 then some Command.open_
  else if strcmp0 (cmd_help ++ [13]) buf 0 then some Command.help
  else if strcmp0 (cmd_thursday_on ++ [13]) buf 0 then some Command.thursday_on
  else if strcmp0 (cmd_thursday_off ++ [13]) buf 0 then some Command.thursday_off
  else none

/-- The interrupt handler `ISR(USART_RX_vect)` (lines 94-115) on the received byte `ch`:
new statics, new program state, trace. -/
def isr (ch : Nat) (r : Rx) (s : State) : Rx × State × List Ev :=
  let r1 := put ch r
  if ch = 13 ∨ ch = 10 then
    let r2 := { r1 with idx := 0 }
    match recognise r2.rxbuf with
    | some c => (r2, (console c s).1, (console c s).2)
    | none => (r2, s, [])
  else (r1, s, [])

/-- The interrupt handler run on each byte of `bytes` in turn. -/
def feed : List Nat → Rx → State → Rx × State × List Ev
  | [], r, s => (r, s, [])
  | ch :: cs, r, s =>
    let a := isr ch r s
    let b := feed cs a.1 a.2.1
    (b.1, b.2.1, a.2.2 ++ b.2.2)

/-- Seventeen bytes `a`: a line one byte longer than the line buffer. -/
def longLine : List Nat := List.replicate 17 97

/-- The statics of the interrupt handler after the bytes `bytes` were received from
startup. -/
def rxAfter (bytes : List Nat) : Rx := (feed bytes rxStart (init fun _ => 0)).1

/-! ## Frame and trace lemmas for the door control sequencer -/

theorem PortsOnly.refl (s : State) : PortsOnly s s :=
  ⟨rfl, rfl, rfl, rfl, rfl, rfl, rfl⟩

theorem PortsOnly.trans {a b c : State} (h1 : PortsOnly a b) (h2 : PortsOnly b c) :
    PortsOnly a c := by
  obtain ⟨p1, p2, p3, p4, p5, p6, p7⟩ := h1
  obtain ⟨q1, q2, q3, q4, q5, q6, q7⟩ := h2
  exact ⟨q1.trans p1, q2.trans p2, q3.trans p3, q4.trans p4, q5.trans p5, q6.trans p6,
    q7.trans p7⟩

theorem blink_frame (n : Nat) (s : State) : PortsOnly s (blink n s).1 := by
  induction n generalizing s with
  | zero => exact PortsOnly.refl s
  | succ n ih =>
    have h := ih { s with PORTB := s.PORTB ^^^ 0x20 }
    simpa [blink, PortsOnly] using h

theorem blink_trace (n : Nat) (s : State) : (blink n s).2 = List.replicate n (Ev.delay 250) := by
  induction n generalizing s with
  | zero => rfl
  | succ n ih => simp [blink, ih, List.replicate_succ]

theorem open_frame (s : State) : PortsOnly s (open_ s).1 := by
  have h := blink_frame (4 * OPEN_DURATION_SEC) { s with PORTC := s.PORTC ||| 0x02 }
  simpa [open_, PortsOnly] using h

theorem open_trace (s : State) :
    (open_ s).2 = Ev.openCall :: List.replicate 12 (Ev.delay 250) := by
  simp [open_, blink_trace, OPEN_DURATION_SEC]

theorem hob_frame (pinc : Nat) (s : State) : PortsOnly s (handle_open_button pinc s).2.1 := by
  unfold handle_open_button
  split
  · exact PortsOnly.refl s
  · exact open_frame s

theorem hob_idle (pinc : Nat) (s : State) (h : pinc &&& 0x20 ≠ 0) :
    handle_open_button pinc s = (0, s, []) := by
  simp [handle_open_button, h]

theorem hob_pressed (pinc : Nat) (s : State) (h : pinc &&& 0x20 = 0) :
    handle_open_button pinc s = (1, (open_ s).1, Ev.tx Note.OPEN :: (open_ s).2) := by
  simp [handle_open_button, h]

theorem ringLoop_frame (btn bell : Nat → Nat) (n i : Nat) (s : State) :
    PortsOnly s (ringLoop btn bell n i s).1 := by
  induction n generalizing i s with
  | zero => exact PortsOnly.refl s
  | succ n ih =>
    unfold ringLoop
    simp only []
    split
    · exact hob_frame _ s
    · split
      · exact hob_frame _ s
      · exact (hob_frame _ s).trans (ih _ _)

theorem ring_frame (btn bell : Nat → Nat) (s : State) : PortsOnly s (ring btn bell s).1 := by
  have h := ringLoop_frame btn bell (RING_DURATION_SEC * 100) 0
    { s with PORTB := s.PORTB ||| 0x20, PORTC := s.PORTC ||| 0x04 }
  simpa [ring, PortsOnly] using h

/-- With the manual-open button never sampled pressed, the loop of `ring()` only delays. -/
theorem ringLoop_quiet (btn bell : Nat → Nat) (hb : ∀ i, btn i &&& 0x20 ≠ 0) (n i : Nat)
    (s : State) :
    ∃ k, k ≤ n ∧ ringLoop btn bell n i s = (s, List.replicate k (Ev.delay 10)) := by
  induction n generalizing i with
  | zero => exact ⟨0, le_refl _, rfl⟩
  | succ n ih =>
    obtain ⟨k, hk, e⟩ := ih (i + 1)
    by_cases hbell : bell i &&& 1 = 0
    · refine ⟨0, Nat.zero_le _, ?_⟩
      rw [ringLoop, hob_idle _ s (hb i)]
      simp only [ne_eq, not_true_eq_false, if_false, hbell, if_true, List.replicate_zero]
    · refine ⟨k + 1, Nat.succ_le_succ hk, ?_⟩
      rw [ringLoop, hob_idle _ s (hb i)]
      simp only [ne_eq, not_true_eq_false, if_false, hbell, e, List.replicate_succ,
        List.nil_append]

theorem set_thursday_mode_trace (m : Nat) (s : State) :
    (set_thursday_mode m s).2 = [Ev.setThu m, Ev.tx (if m ≠ 0 then Note.THU1 else Note.THU0)] := by
  simp [set_thursday_mode]

/-! ## Lemmas on the button polls and the timeout branch -/

theorem pollButtons_idle (inp : Input) (s : State) (h : inp.pinc_open &&& 0x20 ≠ 0) :
    pollButtons inp s = pollThursday inp s := by
  simp only [pollButtons, hob_idle _ s h, List.nil_append]

theorem pollThursday_fires (inp : Input) (s : State) (h : toggleFires inp s = true) :
    pollThursday inp s =
      ({ (set_thursday_mode (if s.global_thursday_mode = 0 then 1 else 0) s).1 with
          thursday_toggle_timeout := 1, TCNT1 := 0 },
        [Ev.setThu (if s.global_thursday_mode = 0 then 1 else 0),
          Ev.tx (if s.global_thursday_mode = 0 then Note.THU1 else Note.THU0)]) := by
  by_cases hm : s.global_thursday_mode = 0 <;> simp [pollThursday, h, hm, set_thursday_mode]

theorem pollThursday_rests (inp : Input) (s : State) (h : toggleFires inp s = false) :
    pollThursday inp s = (s, []) := by
  simp [pollThursday, h]

theorem pollThursday_decoder_vars (inp : Input) (s : State) :
    (pollThursday inp s).1.pattern = s.pattern ∧ (pollThursday inp s).1.pidx = s.pidx ∧
    (pollThursday inp s).1.codefail = s.codefail := by
  by_cases ht : toggleFires inp s = true
  · rw [pollThursday_fires inp s ht]
    by_cases hm : s.global_thursday_mode = 0 <;> simp [hm, set_thursday_mode]
  · rw [pollThursday_rests inp s (by simpa using ht)]
    exact ⟨rfl, rfl, rfl⟩

theorem pollButtons_decoder_vars (inp : Input) (s : State) :
    (pollButtons inp s).1.pattern = s.pattern ∧ (pollButtons inp s).1.pidx = s.pidx ∧
    (pollButtons inp s).1.codefail = s.codefail := by
  obtain ⟨h1, h2, _, h4, _, _, _⟩ := hob_frame inp.pinc_open s
  obtain ⟨t1, t2, t4⟩ := pollThursday_decoder_vars inp (handle_open_button inp.pinc_open s).2.1
  exact ⟨t1.trans h1, t2.trans h2, t4.trans h4⟩

theorem ring_quiet (btn bell : Nat → Nat) (hb : ∀ i, btn i &&& 0x20 ≠ 0) (s : State) :
    ∃ k, k ≤ 2000 ∧
      (ring btn bell s).2 = Ev.ringCall :: Ev.tx Note.RING :: List.replicate k (Ev.delay 10) := by
  obtain ⟨k, hk, e⟩ := ringLoop_quiet btn bell hb (RING_DURATION_SEC * 100) 0
    { s with PORTB := s.PORTB ||| 0x20, PORTC := s.PORTC ||| 0x04 }
  exact ⟨k, hk, by simp [ring, e]⟩

theorem timeoutBranch_state (inp : Input) (s : State) :
    (timeoutBranch inp s).1.pidx = 0 ∧ (timeoutBranch inp s).1.codefail = 0 ∧
    (timeoutBranch inp s).1.thursday_toggle_timeout = 0 ∧ (timeoutBranch inp s).1.TCNT1 = 0 := by
  unfold timeoutBranch
  simp only []
  split_ifs <;> simp [set_thursday_mode]

theorem timeoutBranch_trace (inp : Input) (s : State) :
    ∃ tail, (timeoutBranch inp s).2 =
        (if s.pidx ≠ 0 ∨ s.codefail ≠ 0 then (ring inp.ring_open inp.ring_bell s).2 else []) ++ tail ∧
      (tail = [] ∨ tail = [Ev.tx Note.TOUT, Ev.setThu 0, Ev.tx Note.THU0]) := by
  unfold timeoutBranch
  simp only []
  split_ifs
  · exact ⟨_, rfl, Or.inr (by simp [set_thursday_mode])⟩
  · exact ⟨[], by simp, Or.inl rfl⟩
  · exact ⟨_, rfl, Or.inr (by simp [set_thursday_mode])⟩
  · exact ⟨[], by simp, Or.inl rfl⟩

theorem dispatch_timeout (inp : Input) (s : State)
    (h : (readTCNT1 inp.ticks159 s).TCNT1 > 62500) :
    dispatch inp s = timeoutBranch inp (readTCNT1 inp.ticks159 s) := by
  have : timedOut (readTCNT1 inp.ticks159 s) = true := by
    simpa [timedOut, TIMEOUT_SEC, HZ] using h
  simp [dispatch, this]

theorem dispatch_else (inp : Input) (s : State)
    (h : (readTCNT1 inp.ticks159 s).TCNT1 ≤ 62500) :
    dispatch inp s = elseBranch inp (readTCNT1 inp.ticks159 s) := by
  have : timedOut (readTCNT1 inp.ticks159 s) = false := by
    simpa [timedOut, TIMEOUT_SEC, HZ] using h
  simp [dispatch, this]

/-! ## C1: classification of a six-pulse attempt -/

set_option maxRecDepth 20000 in
/-- C1, evaluated on the code at a concrete attempt.  From the state at loop entry, six
samples of 937 ticks (60 ms) are accepted at alternating doorbell levels.  With the
never-written slot 6 of `pattern` holding 0 the sixth acceptance emits nothing, sets
`codefail`, and the next timeout iteration starts `ring()` with `RING`; with slot 6 holding
781 the very same six recorded samples give `CODE` and `open()`.  So the outcome is not
determined by the recorded samples: line 190 reads `pattern[6]`, which no iteration
writes. -/
theorem six_long_pulses_outcome_depends_on_stale_slot :
    List.ofFn (run (init fun _ => 0) sixPulses).1.pattern = [937, 937, 937, 937, 937, 937, 0] ∧
    (run (init fun _ => 0) sixPulses).1.codefail = 1 ∧
    (run (init fun _ => 0) sixPulses).2 = [] ∧
    (main_loop (quiet 1 62501) (run (init fun _ => 0) sixPulses).1).2.take 2
      = [Ev.ringCall, Ev.tx Note.RING] ∧
    List.ofFn (run (init fun _ => 781) sixPulses).1.pattern
      = [937, 937, 937, 937, 937, 937, 781] ∧
    (run (init fun _ => 781) sixPulses).1.codefail = 0 ∧
    (run (init fun _ => 781) sixPulses).2
      = Ev.tx Note.CODE :: Ev.openCall :: List.replicate 12 (Ev.delay 250) := by
  refine ⟨by decide, by decide, by decide, by decide, by decide, by decide, by decide⟩

/-! ## C2: the timeout iteration -/

/-- C2. In an iteration whose clock reading at the timeout test exceeds 62500 ticks, with
the manual-open button sampled not pressed at the loop head and at every poll inside
`ring()`, and the buffer index in its range 0..5: `ring()` is entered, and `RING` sent,
exactly once if between 1 and 5 samples are buffered or `codefail` is set, and not at all
otherwise; `open()` is not entered and `OPEN`, `CODE`, `THUA` are not sent; afterwards
`pidx`, `codefail`, the toggle latch and the clock are all 0. -/
theorem timeout_rings_once (inp : Input) (s : State)
    (hclock : reading159 inp s > 62500)
    (hbtn : inp.pinc_open &&& 0x20 ≠ 0)
    (hring : ∀ i, inp.ring_open i &&& 0x20 ≠ 0)
    (hp : s.pidx ≤ 5) :
    (main_loop inp s).2.count Ev.ringCall
      = (if (1 ≤ s.pidx ∧ s.pidx ≤ 5) ∨ s.codefail ≠ 0 then 1 else 0) ∧
    (main_loop inp s).2.count (Ev.tx Note.RING)
      = (if (1 ≤ s.pidx ∧ s.pidx ≤ 5) ∨ s.codefail ≠ 0 then 1 else 0) ∧
    (main_loop inp s).2.count Ev.openCall = 0 ∧
    (main_loop inp s).2.count (Ev.tx Note.OPEN) = 0 ∧
    (main_loop inp s).2.count (Ev.tx Note.CODE) = 0 ∧
    (main_loop inp s).2.count (Ev.tx Note.THUA) = 0 ∧
    (main_loop inp s).1.pidx = 0 ∧ (main_loop inp s).1.codefail = 0 ∧
    (main_loop inp s).1.thursday_toggle_timeout = 0 ∧ (main_loop inp s).1.TCNT1 = 0 := by
  obtain ⟨-, hpi, hcf⟩ := pollButtons_decoder_vars inp s
  have hd := dispatch_timeout inp (pollButtons inp s).1 hclock
  obtain ⟨tail, htr, htail⟩ := timeoutBranch_trace inp (readTCNT1 inp.ticks159 (pollButtons inp s).1)
  obtain ⟨k, -, hk⟩ := ring_quiet inp.ring_open inp.ring_bell hring
    (readTCNT1 inp.ticks159 (pollButtons inp s).1)
  obtain ⟨e1, e2, e3, e4⟩ := timeoutBranch_state inp (readTCNT1 inp.ticks159 (pollButtons inp s).1)
  have hpt : (pollButtons inp s).2 = [] ∨ ∃ m n, (pollButtons inp s).2 = [Ev.setThu m, Ev.tx n] ∧
      (n = Note.THU1 ∨ n = Note.THU0) := by
    rw [pollButtons_idle inp s hbtn]
    by_cases ht : toggleFires inp s = true
    · right
      rw [pollThursday_fires inp s ht]
      refine ⟨_, _, rfl, ?_⟩
      by_cases hm : s.global_thursday_mode = 0 <;> simp [hm]
    · left
      rw [pollThursday_rests inp s (by simpa using ht)]
  have hcond : ((1 ≤ s.pidx ∧ s.pidx ≤ 5) ∨ s.codefail ≠ 0) ↔ (s.pidx ≠ 0 ∨ s.codefail ≠ 0) := by
    constructor
    · rintro (⟨h, -⟩ | h)
      · exact Or.inl (by omega)
      · exact Or.inr h
    · rintro (h | h)
      · exact Or.inl ⟨by omega, hp⟩
      · exact Or.inr h
  have hrp : (readTCNT1 inp.ticks159 (pollButtons inp s).1).pidx = s.pidx := by
    simpa [readTCNT1] using hpi
  have hrc : (readTCNT1 inp.ticks159 (pollButtons inp s).1).codefail = s.codefail := by
    simpa [readTCNT1] using hcf
  rw [hrp, hrc, hk] at htr
  simp only [main_loop, hd, e1, e2, e3, e4, htr, and_true, if_congr hcond rfl rfl]
  by_cases hc : s.pidx ≠ 0 ∨ s.codefail ≠ 0
  · simp only [if_pos hc]
    rcases hpt with h | ⟨m, n, h, rfl | rfl⟩ <;> rcases htail with rfl | rfl <;>
      simp [h, List.count_replicate]
  · simp only [if_neg hc]
    rcases hpt with h | ⟨m, n, h, rfl | rfl⟩ <;> rcases htail with rfl | rfl <;>
      simp [h]

/-- C2 at a concrete input: the doorbell goes low 200 ticks after boot (one sample
buffered) and is then held low until the clock passes 62500 ticks. -/
theorem timeout_rings_once_witness :
    onePress.pidx = 1 ∧ reading159 (quiet 0 62501) onePress = 62501 ∧
    (main_loop (quiet 0 62501) onePress).2.count Ev.ringCall = 1 ∧
    (main_loop (quiet 0 62501) onePress).2.count (Ev.tx Note.RING) = 1 ∧
    (main_loop (quiet 0 62501) onePress).2.count Ev.openCall = 0 ∧
    (main_loop (quiet 0 62501) onePress).1.pidx = 0 ∧
    (main_loop (quiet 0 62501) onePress).1.TCNT1 = 0 := by
  have h := timeout_rings_once (quiet 0 62501) onePress (by decide) (by decide)
    (fun _ => by show (0x28 ||| 0) &&& 0x20 ≠ 0; decide) (by decide)
  have hc : (1 ≤ onePress.pidx ∧ onePress.pidx ≤ 5) ∨ onePress.codefail ≠ 0 :=
    Or.inl (by decide)
  rw [if_pos hc] at h
  exact ⟨by decide, by decide, h.1, h.2.1, h.2.2.1, h.2.2.2.2.2.2.1, h.2.2.2.2.2.2.2.2.2⟩

/-! ## Lemmas on the `else` branch and the decoder -/

theorem pollButtons_trace_counts (inp : Input) (s : State) :
    (pollButtons inp s).2.count Ev.openCall = (if inp.pinc_open &&& 0x20 = 0 then 1 else 0) ∧
    (pollButtons inp s).2.count (Ev.tx Note.THUA) = 0 := by
  have ht : (pollThursday inp (handle_open_button inp.pinc_open s).2.1).2.count Ev.openCall = 0 ∧
      (pollThursday inp (handle_open_button inp.pinc_open s).2.1).2.count (Ev.tx Note.THUA) = 0 := by
    by_cases ht : toggleFires inp (handle_open_button inp.pinc_open s).2.1 = true
    · rw [pollThursday_fires _ _ ht]
      by_cases hm : (handle_open_button inp.pinc_open s).2.1.global_thursday_mode = 0 <;>
        simp [hm]
    · rw [pollThursday_rests _ _ (by simpa using ht)]
      simp
  by_cases hb : inp.pinc_open &&& 0x20 = 0
  · simp only [pollButtons, List.count_append, ht.1, ht.2, if_pos hb]
    rw [hob_pressed _ s hb]
    simp [open_trace, List.count_replicate]
  · simp only [pollButtons, List.count_append, ht.1, ht.2, if_neg hb]
    rw [hob_idle _ s hb]
    simp

theorem decoder_short (inp : Input) (s : State)
    (h : (readTCNT1 inp.ticks179 s).TCNT1 ≤ 156) :
    decoder inp s = (readTCNT1 inp.ticks179 s, []) := by
  have : ¬ (readTCNT1 inp.ticks179 s).TCNT1 > HZ * MIN_PULSE_WIDTH_MS / 1000 := by
    simp only [HZ, MIN_PULSE_WIDTH_MS]; omega
  simp only [decoder, this, if_false]

theorem decoder_accepts (inp : Input) (s : State)
    (h : 157 ≤ (readTCNT1 inp.ticks179 s).TCNT1) :
    (decoder inp s).1.pattern = store s.pattern s.pidx (readTCNT1 inp.ticks179 s).TCNT1 ∧
    (decoder inp s).1.TCNT1 = 0 ∧
    (decoder inp s).1.pidx = (if (s.pidx + 1) % 256 = 6 then 0 else (s.pidx + 1) % 256) := by
  have hv : (readTCNT1 inp.ticks179 s).TCNT1 > HZ * MIN_PULSE_WIDTH_MS / 1000 := by
    simp only [HZ, MIN_PULSE_WIDTH_MS]; omega
  simp only [decoder, hv, if_true]
  by_cases h6 : (s.pidx + 1) % 256 = 6
  · have h6' : (readTCNT1 inp.ticks179 s).pidx = s.pidx := rfl
    simp only [h6', h6, if_true, Nat.reduceSub]
    split_ifs with hc
    · obtain ⟨o1, -, -, -, -, -, o7⟩ := open_frame
        { readTCNT1 inp.ticks179 s with
          pattern := store (readTCNT1 inp.ticks179 s).pattern s.pidx (readTCNT1 inp.ticks179 s).TCNT1,
          pidx := 0, TCNT1 := 0 }
      exact ⟨o1, o7, rfl⟩
    · exact ⟨rfl, rfl, rfl⟩
  · have h6' : (readTCNT1 inp.ticks179 s).pidx = s.pidx := rfl
    simp only [h6', h6, if_false, Nat.reduceSub]
    trivial

theorem elseBranch_decodes (inp : Input) (s : State)
    (hauto : ¬ (s.global_thursday_mode ≠ 0 ∧ inp.pinc_bell &&& 1 = 0))
    (hlevel : inp.pinc_bell &&& 1 = s.pidx &&& 1) :
    elseBranch inp s = decoder inp s := by
  unfold elseBranch
  simp only []
  rw [if_neg hauto, if_pos hlevel]

theorem elseBranch_auto (inp : Input) (s : State)
    (hmode : s.global_thursday_mode ≠ 0) (hbell : inp.pinc_bell &&& 1 = 0) :
    elseBranch inp s =
      ((open_ s).1, Ev.tx Note.THUA :: Ev.delay 750 :: (open_ s).2) := by
  have : s.global_thursday_mode ≠ 0 ∧ inp.pinc_bell &&& 1 = 0 := ⟨hmode, hbell⟩
  unfold elseBranch
  simp only []
  rw [if_pos this]
  rfl

/-! ## C3: pulses below the debounce floor -/

/-- C3 as stated fails at the sixth sample.  After five accepted samples (`pidx = 5`) an
iteration without timeout reaches the decoder with the level matching the phase and a
reading of 937 ticks; the sample is accepted, and the index after the iteration is 0, not
`5 + 1`. -/
theorem sixth_sample_returns_index_to_zero :
    fivePulses.pidx = 5 ∧
    reading159 (quiet 1 937) fivePulses ≤ 62500 ∧
    (quiet 1 937).pinc_bell &&& 1 = fivePulses.pidx &&& 1 ∧
    reading179 (quiet 1 937) fivePulses = 937 ∧
    (main_loop (quiet 1 937) fivePulses).1.pidx = 0 ∧
    (main_loop (quiet 1 937) fivePulses).1.pidx ≠ fivePulses.pidx + 1 := by
  refine ⟨by decide, by decide, by decide, by decide, by decide, by decide⟩

/-- C3, amended.  In an iteration that does not time out, does not auto-open, and samples
the doorbell level equal to `pidx & 1`: if the reading taken at line 179 is at most 156
ticks, then `pidx`, `pattern` and `codefail` are as before the iteration, the clock is left
at the value read (not reset), and the iteration emits only what the button polls emitted,
which is nothing when neither button is acted on; if the reading is 157 or more, it is
stored at slot `pidx`, the clock is reset, and the index advances by one from 0..4 and
returns to 0 from 5. -/
theorem short_pulse_absorbed (inp : Input) (s : State)
    (hclock : reading159 inp s ≤ 62500)
    (hauto : ¬ ((pollButtons inp s).1.global_thursday_mode ≠ 0 ∧ inp.pinc_bell &&& 1 = 0))
    (hlevel : inp.pinc_bell &&& 1 = s.pidx &&& 1) :
    (reading179 inp s ≤ 156 →
      (main_loop inp s).1.pidx = s.pidx ∧ (main_loop inp s).1.pattern = s.pattern ∧
      (main_loop inp s).1.codefail = s.codefail ∧
      (main_loop inp s).1.TCNT1 = reading179 inp s ∧
      (main_loop inp s).2 = (pollButtons inp s).2 ∧
      (inp.pinc_open &&& 0x20 ≠ 0 → toggleFires inp s = false → (main_loop inp s).2 = [])) ∧
    (157 ≤ reading179 inp s →
      (main_loop inp s).1.pattern = store s.pattern s.pidx (reading179 inp s) ∧
      (main_loop inp s).1.TCNT1 = 0 ∧
      (s.pidx < 5 → (main_loop inp s).1.pidx = s.pidx + 1) ∧
      (s.pidx = 5 → (main_loop inp s).1.pidx = 0)) := by
  obtain ⟨hpat, hpi, hcf⟩ := pollButtons_decoder_vars inp s
  have hd := dispatch_else inp (pollButtons inp s).1 hclock
  have hrp : (readTCNT1 inp.ticks159 (pollButtons inp s).1).pidx = s.pidx := hpi
  have he := elseBranch_decodes inp (readTCNT1 inp.ticks159 (pollButtons inp s).1) hauto
    (by rw [hrp]; exact hlevel)
  constructor
  · intro hshort
    have hdec := decoder_short inp (readTCNT1 inp.ticks159 (pollButtons inp s).1) hshort
    have hm : main_loop inp s =
        (readTCNT1 inp.ticks179 (readTCNT1 inp.ticks159 (pollButtons inp s).1),
          (pollButtons inp s).2) := by
      simp only [main_loop, hd, he, hdec, List.append_nil]
    rw [hm]
    refine ⟨hpi, hpat, hcf, rfl, rfl, ?_⟩
    intro hb ht
    simp only [pollButtons_idle inp s hb, pollThursday_rests inp s ht]
  · intro hlong
    obtain ⟨a1, a2, a3⟩ := decoder_accepts inp (readTCNT1 inp.ticks159 (pollButtons inp s).1) hlong
    have hm : (main_loop inp s).1 = (decoder inp (readTCNT1 inp.ticks159 (pollButtons inp s).1)).1 := by
      simp only [main_loop, hd, he]
    rw [hm, a1, a2, a3, hrp]
    have hrpat : (readTCNT1 inp.ticks159 (pollButtons inp s).1).pattern = s.pattern := hpat
    refine ⟨by rw [hrpat]; rfl, rfl, ?_, ?_⟩
    · intro h5
      have : (s.pidx + 1) % 256 = s.pidx + 1 := Nat.mod_eq_of_lt (by omega)
      rw [this, if_neg (by omega)]
    · intro h5
      rw [h5]; rfl

/-- C3 amended, at concrete inputs: from `onePress` (`pidx = 1`) the doorbell line is back
high; a reading of 156 ticks changes nothing and emits nothing, a reading of 157 ticks is
stored in slot 1 and the index becomes 2. -/
theorem short_pulse_absorbed_witness :
    ((main_loop (quiet 1 156) onePress).1.pidx = 1 ∧
      (main_loop (quiet 1 156) onePress).1.TCNT1 = 156 ∧
      (main_loop (quiet 1 156) onePress).2 = []) ∧
    ((main_loop (quiet 1 157) onePress).1.pattern 1 = 157 ∧
      (main_loop (quiet 1 157) onePress).1.pidx = 2) := by
  have h1 := (short_pulse_absorbed (quiet 1 156) onePress (by decide) (by decide)
    (by decide)).1 (by decide)
  have h2 := (short_pulse_absorbed (quiet 1 157) onePress (by decide) (by decide)
    (by decide)).2 (by decide)
  refine ⟨⟨h1.1, h1.2.2.2.1.trans (by decide), h1.2.2.2.2.2 (by decide) (by decide)⟩, ?_,
    h2.2.2.1 (by decide)⟩
  rw [h2.1]
  decide

/-! ## C4: thursday auto-open -/

/-- C4 as stated fails when the manual-open button is pressed in the same iteration.
With thursday mode on, no timeout pending and the doorbell line low, an iteration that
also samples the manual-open button pressed enters `open()` twice: once for `OPEN`, once for
`THUA`. -/
theorem auto_open_after_manual_open_opens_twice :
    thursdayOn.global_thursday_mode = 1 ∧
    (pollButtons (openPressed 0 0) thursdayOn).1.global_thursday_mode = 1 ∧
    reading159 (openPressed 0 0) thursdayOn ≤ 62500 ∧
    (openPressed 0 0).pinc_bell &&& 1 = 0 ∧
    (main_loop (openPressed 0 0) thursdayOn).2.count (Ev.tx Note.THUA) = 1 ∧
    (main_loop (openPressed 0 0) thursdayOn).2.count Ev.openCall = 2 := by
  refine ⟨by decide, by decide, by decide, by decide, by decide, by decide⟩

/-- C4, amended.  In an iteration with no timeout pending, thursday mode enabled when the
doorbell is sampled (after the toggle poll of the same iteration) and the doorbell line low:
after the output of the button polls the iteration sends `THUA`, waits 750 ms and runs
`open()`, and nothing else; `THUA` is sent exactly once; `open()` is entered once for the
auto-open, plus once more if the manual-open button was sampled pressed at the loop head;
`pidx`, `pattern` and `codefail` are unchanged whatever they were. -/
theorem thursday_auto_open (inp : Input) (s : State)
    (hclock : reading159 inp s ≤ 62500)
    (hmode : (pollButtons inp s).1.global_thursday_mode ≠ 0)
    (hbell : inp.pinc_bell &&& 1 = 0) :
    (main_loop inp s).2 = (pollButtons inp s).2 ++
      Ev.tx Note.THUA :: Ev.delay 750 :: Ev.openCall :: List.replicate 12 (Ev.delay 250) ∧
    (main_loop inp s).2.count (Ev.tx Note.THUA) = 1 ∧
    (main_loop inp s).2.count Ev.openCall = (if inp.pinc_open &&& 0x20 = 0 then 2 else 1) ∧
    (main_loop inp s).1.pidx = s.pidx ∧ (main_loop inp s).1.pattern = s.pattern ∧
    (main_loop inp s).1.codefail = s.codefail := by
  obtain ⟨hpat, hpi, hcf⟩ := pollButtons_decoder_vars inp s
  obtain ⟨c1, c2⟩ := pollButtons_trace_counts inp s
  have hd := dispatch_else inp (pollButtons inp s).1 hclock
  have he := elseBranch_auto inp (readTCNT1 inp.ticks159 (pollButtons inp s).1) hmode hbell
  obtain ⟨o1, o2, -, o4, -, -, -⟩ := open_frame (readTCNT1 inp.ticks159 (pollButtons inp s).1)
  have hm : main_loop inp s = ((open_ (readTCNT1 inp.ticks159 (pollButtons inp s).1)).1,
      (pollButtons inp s).2 ++
        Ev.tx Note.THUA :: Ev.delay 750 :: Ev.openCall :: List.replicate 12 (Ev.delay 250)) := by
    simp only [main_loop, hd, he, open_trace]
  rw [hm]
  refine ⟨rfl, ?_, ?_, o2.trans hpi, o1.trans hpat, o4.trans hcf⟩
  · simp [List.count_append, c2, List.count_replicate]
  · by_cases hb : inp.pinc_open &&& 0x20 = 0 <;>
      simp [List.count_append, c1, hb, List.count_replicate]

/-- C4 amended, at a concrete input: thursday mode switched on from the console, then an
iteration with no button pressed and the doorbell line low. -/
theorem thursday_auto_open_witness :
    (main_loop (quiet 0 0) thursdayOn).2 =
      Ev.tx Note.THUA :: Ev.delay 750 :: Ev.openCall :: List.replicate 12 (Ev.delay 250) ∧
    (main_loop (quiet 0 0) thursdayOn).2.count Ev.openCall = 1 ∧
    (main_loop (quiet 0 0) thursdayOn).1.pidx = 0 := by
  have h := thursday_auto_open (quiet 0 0) thursdayOn (by decide) (by decide) (by decide)
  refine ⟨h.1.trans (by decide), h.2.2.1.trans (by decide), h.2.2.2.1.trans (by decide)⟩

/-! ## C5: ringing while thursday mode is on -/

set_option maxRecDepth 20000 in
/-- C5, evaluated on the code at a reachable state.  A press of the doorbell is accepted
(`pidx = 1`); the thursday toggle button is then pressed, which switches thursday mode on
and leaves the buffered sample in place.  With thursday mode on, an iteration that sees the
line high 200 ticks later advances the buffer index from 1 to 2, and the timeout iteration
after that (as well as a timeout iteration taken directly) enters `ring()` and sends
`RING`, the mode still being on afterwards. -/
theorem rings_and_decodes_with_thursday_mode_on :
    Reachable toggledMidAttempt ∧
    toggledMidAttempt.global_thursday_mode = 1 ∧ toggledMidAttempt.pidx = 1 ∧
    (main_loop (quiet 1 200) toggledMidAttempt).1.global_thursday_mode = 1 ∧
    (main_loop (quiet 1 200) toggledMidAttempt).1.pidx = 2 ∧
    (main_loop (quiet 1 62501) (main_loop (quiet 1 200) toggledMidAttempt).1).2.take 2
      = [Ev.ringCall, Ev.tx Note.RING] ∧
    (main_loop (quiet 1 62501)
      (main_loop (quiet 1 200) toggledMidAttempt).1).1.global_thursday_mode = 1 ∧
    (main_loop (quiet 1 62501) toggledMidAttempt).2.take 2 = [Ev.ringCall, Ev.tx Note.RING] := by
  refine ⟨?_, by decide, by decide, by decide, by decide, by decide, by decide, by decide⟩
  exact Reachable.loop (togglePressed 1 0)
    (Reachable.loop (quiet 0 200) (Reachable.start fun _ => 0))

/-! ## Lemmas on the thursday variables -/

theorem doorEvent_no_TOUT {t : List Ev} (h : ∀ e ∈ t, doorEvent e = true) :
    t.count (Ev.tx Note.TOUT) = 0 := by
  rw [List.count_eq_zero]
  intro hmem
  have := h _ hmem
  simp [doorEvent] at this

theorem doorEvent_no_setThu {t : List Ev} (h : ∀ e ∈ t, doorEvent e = true) :
    t.countP isSetThu = 0 := by
  rw [List.countP_eq_zero]
  intro e hmem
  have := h e hmem
  cases e <;> simp_all [doorEvent, isSetThu]

theorem open_doorEvent (s : State) : ∀ e ∈ (open_ s).2, doorEvent e = true := by
  intro e he
  rw [open_trace] at he
  rcases List.mem_cons.mp he with rfl | he
  · rfl
  · rw [List.eq_of_mem_replicate he]; rfl

theorem hob_doorEvent (pinc : Nat) (s : State) :
    ∀ e ∈ (handle_open_button pinc s).2.2, doorEvent e = true := by
  intro e he
  by_cases hb : pinc &&& 0x20 = 0
  · rw [hob_pressed _ s hb] at he
    rcases List.mem_cons.mp he with rfl | he
    · rfl
    · exact open_doorEvent s e he
  · rw [hob_idle _ s hb] at he
    simp at he

theorem ringLoop_doorEvent (btn bell : Nat → Nat) (n i : Nat) (s : State) :
    ∀ e ∈ (ringLoop btn bell n i s).2, doorEvent e = true := by
  induction n generalizing i s with
  | zero => intro e he; simp [ringLoop] at he
  | succ n ih =>
    intro e
    unfold ringLoop
    simp only []
    split_ifs
    · exact hob_doorEvent _ s e
    · exact hob_doorEvent _ s e
    · intro he
      rcases List.mem_append.mp he with he | he
      · exact hob_doorEvent _ s e he
      · rcases List.mem_cons.mp he with rfl | he
        · rfl
        · exact ih _ _ e he

theorem ring_doorEvent (btn bell : Nat → Nat) (s : State) :
    ∀ e ∈ (ring btn bell s).2, doorEvent e = true := by
  intro e he
  simp only [ring] at he
  rcases List.mem_cons.mp he with rfl | he
  · rfl
  · rcases List.mem_cons.mp he with rfl | he
    · rfl
    · exact ringLoop_doorEvent _ _ _ _ _ e he

theorem decoder_doorEvent (inp : Input) (s : State) :
    ∀ e ∈ (decoder inp s).2, doorEvent e = true := by
  intro e
  unfold decoder
  simp only []
  split_ifs
  · intro he
    simp only [code] at he
    rcases List.mem_cons.mp he with rfl | he
    · rfl
    · exact open_doorEvent _ e he
  all_goals intro he; simp at he

theorem elseBranch_doorEvent (inp : Input) (s : State) :
    ∀ e ∈ (elseBranch inp s).2, doorEvent e = true := by
  intro e
  unfold elseBranch
  simp only []
  split_ifs
  · intro he
    rcases List.mem_cons.mp he with rfl | he
    · rfl
    · rcases List.mem_cons.mp he with rfl | he
      · rfl
      · exact open_doorEvent _ e he
  · exact decoder_doorEvent inp s e
  · intro he; simp at he

theorem decoder_thursday_frame (inp : Input) (s : State) :
    (decoder inp s).1.global_thursday_mode = s.global_thursday_mode ∧
    (decoder inp s).1.global_thursday_timectr_sec = s.global_thursday_timectr_sec ∧
    (decoder inp s).1.thursday_toggle_timeout = s.thursday_toggle_timeout := by
  unfold decoder
  simp only []
  split_ifs
  · obtain ⟨-, -, o3, -, o5, o6, -⟩ := open_frame
      { readTCNT1 inp.ticks179 s with
        pattern := store (readTCNT1 inp.ticks179 s).pattern (readTCNT1 inp.ticks179 s).pidx
          (readTCNT1 inp.ticks179 s).TCNT1,
        pidx := 0, TCNT1 := 0 }
    exact ⟨o5, o6, o3⟩
  all_goals exact ⟨rfl, rfl, rfl⟩

theorem elseBranch_thursday_frame (inp : Input) (s : State) :
    (elseBranch inp s).1.global_thursday_mode = s.global_thursday_mode ∧
    (elseBranch inp s).1.global_thursday_timectr_sec = s.global_thursday_timectr_sec ∧
    (elseBranch inp s).1.thursday_toggle_timeout = s.thursday_toggle_timeout := by
  unfold elseBranch
  simp only []
  split_ifs
  · obtain ⟨-, -, o3, -, o5, o6, -⟩ := open_frame s
    exact ⟨o5, o6, o3⟩
  · exact decoder_thursday_frame inp s
  · exact ⟨rfl, rfl, rfl⟩

theorem pollButtons_thursday (inp : Input) (s : State) :
    (pollButtons inp s).1.global_thursday_mode
      = (if toggles inp s then (if s.global_thursday_mode = 0 then 1 else 0)
         else s.global_thursday_mode) ∧
    (pollButtons inp s).1.global_thursday_timectr_sec
      = (if toggles inp s then 0 else s.global_thursday_timectr_sec) ∧
    (pollButtons inp s).1.thursday_toggle_timeout
      = (if toggles inp s then 1 else s.thursday_toggle_timeout) ∧
    (pollButtons inp s).2.count (Ev.tx Note.TOUT) = 0 ∧
    (pollButtons inp s).2.countP isSetThu = (if toggles inp s then 1 else 0) := by
  obtain ⟨-, -, h3, -, h5, h6, -⟩ := hob_frame inp.pinc_open s
  have hT := doorEvent_no_TOUT (hob_doorEvent inp.pinc_open s)
  have hS := doorEvent_no_setThu (hob_doorEvent inp.pinc_open s)
  by_cases ht : toggles inp s = true
  · have ht' : toggleFires inp (handle_open_button inp.pinc_open s).2.1 = true := ht
    simp only [pollButtons, pollThursday_fires _ _ ht', ht, if_true, List.count_append,
      List.countP_append, hT, hS, h5]
    by_cases hm : s.global_thursday_mode = 0 <;> simp [hm, set_thursday_mode, isSetThu]
  · have ht' : toggleFires inp (handle_open_button inp.pinc_open s).2.1 = false := by
      simpa [toggles] using ht
    simp only [pollButtons, pollThursday_rests _ _ ht', ht, if_false, List.count_append,
      List.countP_append, hT, hS, h3, h5, h6]
    simp

theorem land_clear_bit4 (x : Nat) : x &&& 0xEF &&& 0x10 = 0 := by
  rw [Nat.land_assoc]
  have : (0xEF : Nat) &&& 0x10 = 0 := by decide
  rw [this]
  exact Nat.and_zero x

theorem timeoutBranch_thursday (inp : Input) (s : State) :
    (timeoutBranch inp s).1.global_thursday_timectr_sec
      = (if 18000 ≤ (s.global_thursday_timectr_sec + 4) % 65536 then 0
         else (s.global_thursday_timectr_sec + 4) % 65536) ∧
    (timeoutBranch inp s).1.global_thursday_mode
      = (if 18000 ≤ (s.global_thursday_timectr_sec + 4) % 65536 then 0
         else s.global_thursday_mode) ∧
    (timeoutBranch inp s).2.count (Ev.tx Note.TOUT)
      = (if 18000 ≤ (s.global_thursday_timectr_sec + 4) % 65536 then 1 else 0) ∧
    (18000 ≤ (s.global_thursday_timectr_sec + 4) % 65536 →
      (timeoutBranch inp s).1.PORTC &&& 0x10 = 0) := by
  obtain ⟨-, -, -, -, r5, r6, -⟩ := ring_frame inp.ring_open inp.ring_bell s
  have hT := doorEvent_no_TOUT (ring_doorEvent inp.ring_open inp.ring_bell s)
  unfold timeoutBranch
  simp only [TIMEOUT_SEC, THURSDAY_TIMEOUT_MIN, Nat.reduceMul, ge_iff_le]
  by_cases hr : s.pidx ≠ 0 ∨ s.codefail ≠ 0
  · simp only [if_pos hr, r6, r5]
    by_cases hc : 18000 ≤ (s.global_thursday_timectr_sec + 4) % 65536
    · simp only [if_pos hc, List.count_append, hT]
      simp [set_thursday_mode, land_clear_bit4]
    · simp only [if_neg hc, hT]
      simp [hc]
  · simp only [if_neg hr]
    by_cases hc : 18000 ≤ (s.global_thursday_timectr_sec + 4) % 65536
    · simp only [if_pos hc]
      simp [set_thursday_mode, land_clear_bit4]
    · simp only [if_neg hc]
      simp [hc]

theorem main_loop_timeout_step (inp : Input) (s : State) (h : timesOut inp s = true) :
    main_loop inp s =
      ((timeoutBranch inp (readTCNT1 inp.ticks159 (pollButtons inp s).1)).1,
        (pollButtons inp s).2 ++
          (timeoutBranch inp (readTCNT1 inp.ticks159 (pollButtons inp s).1)).2) := by
  have h' : timedOut (readTCNT1 inp.ticks159 (pollButtons inp s).1) = true := h
  simp only [main_loop, dispatch, h', if_true]

theorem main_loop_else_step (inp : Input) (s : State) (h : timesOut inp s = false) :
    main_loop inp s =
      ((elseBranch inp (readTCNT1 inp.ticks159 (pollButtons inp s).1)).1,
        (pollButtons inp s).2 ++
          (elseBranch inp (readTCNT1 inp.ticks159 (pollButtons inp s).1)).2) := by
  have h' : timedOut (readTCNT1 inp.ticks159 (pollButtons inp s).1) = false := h
  simp [main_loop, dispatch, h']

/-- The thursday counter after one iteration, in terms of the state before it. -/
theorem main_loop_counter (inp : Input) (s : State) :
    (main_loop inp s).1.global_thursday_timectr_sec =
      (if timesOut inp s then
        (if 18000 ≤ ((if toggles inp s then 0 else s.global_thursday_timectr_sec) + 4) % 65536
          then 0
          else ((if toggles inp s then 0 else s.global_thursday_timectr_sec) + 4) % 65536)
       else (if toggles inp s then 0 else s.global_thursday_timectr_sec)) := by
  obtain ⟨-, p2, -, -, -⟩ := pollButtons_thursday inp s
  by_cases h : timesOut inp s = true
  · rw [main_loop_timeout_step inp s h, if_pos h]
    have := (timeoutBranch_thursday inp (readTCNT1 inp.ticks159 (pollButtons inp s).1)).1
    rw [this]
    have e : (readTCNT1 inp.ticks159 (pollButtons inp s).1).global_thursday_timectr_sec
        = (pollButtons inp s).1.global_thursday_timectr_sec := rfl
    rw [e, p2]
  · have h' : timesOut inp s = false := by simpa using h
    rw [main_loop_else_step inp s h', if_neg h]
    have := (elseBranch_thursday_frame inp (readTCNT1 inp.ticks159 (pollButtons inp s).1)).2.1
    rw [this]
    exact p2

/-- One iteration in which the toggle path does not fire and the counter stays below the
ceiling: mode kept, counter advanced by 4 on a timeout, no `TOUT`. -/
theorem main_loop_quiet_thursday (inp : Input) (s : State) (ht : toggles inp s = false)
    (hc : s.global_thursday_timectr_sec + (if timesOut inp s then 4 else 0) < 18000) :
    (main_loop inp s).1.global_thursday_mode = s.global_thursday_mode ∧
    (main_loop inp s).1.global_thursday_timectr_sec
      = s.global_thursday_timectr_sec + (if timesOut inp s then 4 else 0) ∧
    (main_loop inp s).2.count (Ev.tx Note.TOUT) = 0 := by
  obtain ⟨p1, p2, -, p4, -⟩ := pollButtons_thursday inp s
  simp only [ht, Bool.false_eq_true, if_false] at p1 p2
  by_cases h : timesOut inp s = true
  · simp only [h, if_true] at hc ⊢
    rw [main_loop_timeout_step inp s h]
    obtain ⟨t1, t2, t3, -⟩ := timeoutBranch_thursday inp (readTCNT1 inp.ticks159 (pollButtons inp s).1)
    have e : (readTCNT1 inp.ticks159 (pollButtons inp s).1).global_thursday_timectr_sec
        = s.global_thursday_timectr_sec := p2
    have e' : (readTCNT1 inp.ticks159 (pollButtons inp s).1).global_thursday_mode
        = s.global_thursday_mode := p1
    have hm : (s.global_thursday_timectr_sec + 4) % 65536 = s.global_thursday_timectr_sec + 4 :=
      Nat.mod_eq_of_lt (by omega)
    have hlt : ¬ 18000 ≤ s.global_thursday_timectr_sec + 4 := by omega
    rw [e, hm, if_neg hlt] at t1 t3
    rw [e, e', hm, if_neg hlt] at t2
    exact ⟨t2, t1, by simp only [List.count_append, p4, t3]⟩
  · have h' : timesOut inp s = false := by simpa using h
    simp only [h', Bool.false_eq_true, if_false, Nat.add_zero] at hc ⊢
    rw [main_loop_else_step inp s h']
    obtain ⟨f1, f2, -⟩ := elseBranch_thursday_frame inp (readTCNT1 inp.ticks159 (pollButtons inp s).1)
    have hT := doorEvent_no_TOUT
      (elseBranch_doorEvent inp (readTCNT1 inp.ticks159 (pollButtons inp s).1))
    exact ⟨f1.trans p1, f2.trans p2, by simp only [List.count_append, p4, hT]⟩

theorem run_append (s : State) (is js : List Input) :
    run s (is ++ js) = ((run (run s is).1 js).1, (run s is).2 ++ (run (run s is).1 js).2) := by
  induction is generalizing s with
  | nil => simp [run]
  | cons i is ih => simp [run, ih, List.append_assoc]

theorem timeouts_append (s : State) (is js : List Input) :
    timeouts s (is ++ js) = timeouts s is + timeouts (run s is).1 js := by
  induction is generalizing s with
  | nil => simp [timeouts, run]
  | cons i is ih => simp [timeouts, run, ih, Nat.add_assoc]

theorem toggleCount_append (s : State) (is js : List Input) :
    toggleCount s (is ++ js) = toggleCount s is + toggleCount (run s is).1 js := by
  induction is generalizing s with
  | nil => simp [toggleCount, run]
  | cons i is ih => simp [toggleCount, run, ih, Nat.add_assoc]

/-- A run without toggle in which the counter stays below the ceiling keeps the mode,
counts 4 per timeout and sends no `TOUT`. -/
theorem run_quiet_thursday (is : List Input) : ∀ s : State, toggleCount s is = 0 →
    s.global_thursday_timectr_sec + 4 * timeouts s is < 18000 →
    (run s is).1.global_thursday_mode = s.global_thursday_mode ∧
    (run s is).1.global_thursday_timectr_sec = s.global_thursday_timectr_sec + 4 * timeouts s is ∧
    (run s is).2.count (Ev.tx Note.TOUT) = 0 := by
  induction is with
  | nil => intro s _ _; simp [run, timeouts]
  | cons i is ih =>
    intro s ht hc
    simp only [toggleCount, Nat.add_eq_zero] at ht
    have ht1 : toggles i s = false := by
      by_cases h : toggles i s = true
      · simp [h] at ht
      · simpa using h
    simp only [timeouts] at hc
    have hstep := main_loop_quiet_thursday i s ht1 (by
      by_cases hto : timesOut i s = true
      · simp only [hto, if_true] at hc ⊢; omega
      · have hto' : timesOut i s = false := by simpa using hto
        simp only [hto', Bool.false_eq_true, if_false] at hc ⊢; omega)
    obtain ⟨m1, c1, t1⟩ := hstep
    obtain ⟨m2, c2, t2⟩ := ih (main_loop i s).1 ht.2 (by
      rw [c1]
      by_cases hto : timesOut i s = true
      · simp only [hto, if_true] at hc ⊢; omega
      · have hto' : timesOut i s = false := by simpa using hto
        simp only [hto', Bool.false_eq_true, if_false] at hc ⊢; omega)
    simp only [run, timeouts, List.count_append, t1, t2]
    refine ⟨m2.trans m1, ?_, trivial⟩
    rw [c2, c1]
    split_ifs <;> omega

theorem timeouts_take_le (s : State) (is : List Input) (k : Nat) :
    timeouts s (is.take k) ≤ timeouts s is := by
  have h := timeouts_append s (is.take k) (is.drop k)
  rw [List.take_append_drop] at h
  omega

theorem toggleCount_take_le (s : State) (is : List Input) (k : Nat) :
    toggleCount s (is.take k) ≤ toggleCount s is := by
  have h := toggleCount_append s (is.take k) (is.drop k)
  rw [List.take_append_drop] at h
  omega

/-! ## C6: the thursday mode ceiling -/

/-- C6. Start right after `set_thursday_mode(m)` with `m` nonzero and run any iterations
`is` followed by one more, `inp`, such that the toggle path never fires (no further
`set_thursday_mode` call intervenes), `is` contains exactly 4499 timeout iterations and
`inp` is a timeout iteration, the 4500th.  Then thursday mode is still `m` after every
prefix of `is`, no `TOUT` is sent during `is`, and the iteration on `inp` sends `TOUT`
exactly once, sets the mode to 0, clears the indicator bit `0x10` of `PORTC` and leaves the
elapsed counter at 0. -/
theorem thursday_mode_times_out_at_4500 (s : State) (m : Nat) (hm : m ≠ 0)
    (is : List Input) (inp : Input)
    (hno : toggleCount (set_thursday_mode m s).1 (is ++ [inp]) = 0)
    (hcount : timeouts (set_thursday_mode m s).1 is = 4499)
    (hlast : timesOut inp (run (set_thursday_mode m s).1 is).1 = true) :
    (∀ k, k ≤ is.length →
      (run (set_thursday_mode m s).1 (is.take k)).1.global_thursday_mode = m ∧
      (run (set_thursday_mode m s).1 (is.take k)).1.global_thursday_mode ≠ 0) ∧
    (run (set_thursday_mode m s).1 is).2.count (Ev.tx Note.TOUT) = 0 ∧
    (main_loop inp (run (set_thursday_mode m s).1 is).1).2.count (Ev.tx Note.TOUT) = 1 ∧
    (main_loop inp (run (set_thursday_mode m s).1 is).1).1.global_thursday_mode = 0 ∧
    (main_loop inp (run (set_thursday_mode m s).1 is).1).1.PORTC &&& 0x10 = 0 ∧
    (main_loop inp (run (set_thursday_mode m s).1 is).1).1.global_thursday_timectr_sec = 0 := by
  have hm0 : (set_thursday_mode m s).1.global_thursday_mode = m := by
    simp only [set_thursday_mode, hm, ne_eq, not_false_eq_true, if_true]
  have hc0 : (set_thursday_mode m s).1.global_thursday_timectr_sec = 0 := by
    simp only [set_thursday_mode, hm, ne_eq, not_false_eq_true, if_true]
  rw [toggleCount_append] at hno
  have hno1 : toggleCount (set_thursday_mode m s).1 is = 0 := by omega
  have hno2 : toggles inp (run (set_thursday_mode m s).1 is).1 = false := by
    have h2 : toggleCount (run (set_thursday_mode m s).1 is).1 [inp] = 0 := by omega
    by_cases h : toggles inp (run (set_thursday_mode m s).1 is).1 = true
    · simp [toggleCount, h] at h2
    · simpa using h
  refine ⟨?_, ?_, ?_⟩
  · intro k _
    have h1 := toggleCount_take_le (set_thursday_mode m s).1 is k
    have h2 := timeouts_take_le (set_thursday_mode m s).1 is k
    obtain ⟨a, -, -⟩ := run_quiet_thursday (is.take k) (set_thursday_mode m s).1 (by omega)
      (by rw [hc0]; omega)
    rw [a, hm0]
    exact ⟨rfl, hm⟩
  · exact (run_quiet_thursday is (set_thursday_mode m s).1 hno1 (by rw [hc0]; omega)).2.2
  · obtain ⟨-, b, -⟩ := run_quiet_thursday is (set_thursday_mode m s).1 hno1 (by rw [hc0]; omega)
    rw [hc0, hcount] at b
    obtain ⟨-, p2, -, p4, -⟩ := pollButtons_thursday inp (run (set_thursday_mode m s).1 is).1
    simp only [hno2, Bool.false_eq_true, if_false] at p2
    rw [main_loop_timeout_step _ _ hlast]
    obtain ⟨t1, t2, t3, t4⟩ := timeoutBranch_thursday inp
      (readTCNT1 inp.ticks159 (pollButtons inp (run (set_thursday_mode m s).1 is).1).1)
    have e : (readTCNT1 inp.ticks159
        (pollButtons inp (run (set_thursday_mode m s).1 is).1).1).global_thursday_timectr_sec
        = 17996 := by
      show (pollButtons inp (run (set_thursday_mode m s).1 is).1).1.global_thursday_timectr_sec = _
      rw [p2, b]
    rw [e] at t1 t2 t3 t4
    exact ⟨by simp only [List.count_append, p4, t3]; rfl, t2, t4 (by decide), t1⟩

theorem pollButtons_idleTimeout (s : State) : pollButtons idleTimeout s = (s, []) := by
  have hb : idleTimeout.pinc_open &&& 0x20 ≠ 0 := by
    show (0x28 ||| 1) &&& 0x20 ≠ 0
    decide
  have ht : toggleFires idleTimeout s = false := by
    have : ¬ (idleTimeout.pinc_thu &&& 0x08 = 0) := by
      show ¬ ((0x28 ||| 1) &&& 0x08 = 0)
      decide
    simp only [toggleFires, this, decide_False, Bool.false_and]
  rw [pollButtons_idle _ s hb, pollThursday_rests _ s ht]

theorem timesOut_idleTimeout (s : State) (h : s.TCNT1 = 0) : timesOut idleTimeout s = true := by
  show timedOut (readTCNT1 idleTimeout.ticks159 (pollButtons idleTimeout s).1) = true
  rw [pollButtons_idleTimeout]
  show decide ((s.TCNT1 + 62501) % 65536 > TIMEOUT_SEC * HZ) = true
  rw [h]
  decide

theorem toggles_idleTimeout (s : State) : toggles idleTimeout s = false := by
  have : ¬ (idleTimeout.pinc_thu &&& 0x08 = 0) := by
    show ¬ ((0x28 ||| 1) &&& 0x08 = 0)
    decide
  simp only [toggles, toggleFires, this, decide_False, Bool.false_and]

/-- From a state with the clock at 0, `n` idle timeout inputs give `n` timeout iterations,
no toggle, and the clock at 0 again. -/
theorem idle_timeouts_run (n : Nat) : ∀ s : State, s.TCNT1 = 0 →
    timeouts s (List.replicate n idleTimeout) = n ∧
    toggleCount s (List.replicate n idleTimeout) = 0 ∧
    (run s (List.replicate n idleTimeout)).1.TCNT1 = 0 := by
  induction n with
  | zero => intro s h; exact ⟨rfl, rfl, h⟩
  | succ n ih =>
    intro s h
    have hto := timesOut_idleTimeout s h
    have htg := toggles_idleTimeout s
    have hz : (main_loop idleTimeout s).1.TCNT1 = 0 := by
      rw [main_loop_timeout_step _ _ hto]
      exact (timeoutBranch_state _ _).2.2.2
    obtain ⟨a, b, c⟩ := ih (main_loop idleTimeout s).1 hz
    refine ⟨?_, ?_, ?_⟩
    · simp only [List.replicate_succ, timeouts, hto, a, if_true]
      omega
    · simp only [List.replicate_succ, toggleCount, htg, b, Bool.false_eq_true, if_false]
    · simpa only [List.replicate_succ, run] using c

/-- The hypotheses of the ceiling theorem hold for `thursday on` at loop entry followed by
idle timeouts. -/
theorem idle_timeouts_facts (n : Nat) :
    toggleCount (set_thursday_mode 1 (init fun _ => 0)).1
      (List.replicate n idleTimeout ++ [idleTimeout]) = 0 ∧
    timeouts (set_thursday_mode 1 (init fun _ => 0)).1 (List.replicate n idleTimeout) = n ∧
    timesOut idleTimeout
      (run (set_thursday_mode 1 (init fun _ => 0)).1 (List.replicate n idleTimeout)).1 = true := by
  have h0 : (set_thursday_mode 1 (init fun _ => 0)).1.TCNT1 = 0 := rfl
  obtain ⟨a, -, c⟩ := idle_timeouts_run n _ h0
  obtain ⟨-, b, -⟩ := idle_timeouts_run (n + 1) _ h0
  rw [List.replicate_succ'] at b
  exact ⟨b, a, timesOut_idleTimeout _ c⟩

/-- C6 at a concrete input: `thursday on` at loop entry, then 4500 idle timeouts. -/
theorem thursday_mode_times_out_at_4500_witness :
    timeouts (set_thursday_mode 1 (init fun _ => 0)).1 (List.replicate 4499 idleTimeout) = 4499 ∧
    (main_loop idleTimeout (run (set_thursday_mode 1 (init fun _ => 0)).1
      (List.replicate 4499 idleTimeout)).1).2.count (Ev.tx Note.TOUT) = 1 ∧
    (main_loop idleTimeout (run (set_thursday_mode 1 (init fun _ => 0)).1
      (List.replicate 4499 idleTimeout)).1).1.global_thursday_mode = 0 ∧
    (main_loop idleTimeout (run (set_thursday_mode 1 (init fun _ => 0)).1
      (List.replicate 4499 idleTimeout)).1).1.global_thursday_timectr_sec = 0 :=
  have h := thursday_mode_times_out_at_4500 (init fun _ => 0) 1 Nat.one_ne_zero
    (List.replicate 4499 idleTimeout) idleTimeout (idle_timeouts_facts 4499).1
    (idle_timeouts_facts 4499).2.1 (idle_timeouts_facts 4499).2.2
  ⟨(idle_timeouts_facts 4499).2.1, h.2.2.1, h.2.2.2.1, h.2.2.2.2.2⟩

/-! ## C7: the elapsed counter stays below the ceiling -/

theorem main_loop_counter_bound (inp : Input) (s : State)
    (h : s.global_thursday_timectr_sec < 18000) :
    (main_loop inp s).1.global_thursday_timectr_sec < 18000 := by
  rw [main_loop_counter]
  split_ifs <;> omega

theorem console_counter_bound (c : Command) (s : State)
    (h : s.global_thursday_timectr_sec < 18000) :
    (console c s).1.global_thursday_timectr_sec < 18000 := by
  cases c with
  | open_ =>
    obtain ⟨-, -, -, -, -, o6, -⟩ := open_frame s
    show (open_ s).1.global_thursday_timectr_sec < 18000
    rw [o6]; exact h
  | help => exact h
  | thursday_on => show (0 : Nat) < 18000; decide
  | thursday_off => show (0 : Nat) < 18000; decide

/-- C7. In every state reachable from startup by loop iterations on any inputs and console
commands (taken between iterations), the elapsed-seconds counter is below
`THURSDAY_TIMEOUT_MIN*60` = 18000, so the addition of `TIMEOUT_SEC` at line 167 never
wraps the 16-bit counter. -/
theorem thursday_counter_below_ceiling (s : State) (h : Reachable s) :
    s.global_thursday_timectr_sec < THURSDAY_TIMEOUT_MIN * 60 ∧
    THURSDAY_TIMEOUT_MIN * 60 = 18000 ∧
    s.global_thursday_timectr_sec + TIMEOUT_SEC < 65536 := by
  have key : s.global_thursday_timectr_sec < 18000 := by
    induction h with
    | start g => show (0 : Nat) < 18000; decide
    | loop inp _ ih => exact main_loop_counter_bound inp _ ih
    | command c _ ih => exact console_counter_bound c _ ih
  refine ⟨key, rfl, ?_⟩
  show s.global_thursday_timectr_sec + 4 < 65536
  omega

/-- C7 at a concrete state: one idle timeout after loop entry leaves the counter at 4. -/
theorem thursday_counter_below_ceiling_witness :
    (main_loop idleTimeout (init fun _ => 0)).1.global_thursday_timectr_sec = 4 ∧
    (main_loop idleTimeout (init fun _ => 0)).1.global_thursday_timectr_sec
      < THURSDAY_TIMEOUT_MIN * 60 :=
  ⟨by decide, (thursday_counter_below_ceiling _
    (Reachable.loop idleTimeout (Reachable.start fun _ => 0))).1⟩

/-! ## C8: when the elapsed counter advances -/

/-- C8 as stated fails: at loop entry thursday mode is disabled and the counter is 0; one
idle timeout iteration later the mode is still disabled and the counter is 4. -/
theorem counter_advances_with_mode_disabled :
    (init fun _ => 0).global_thursday_mode = 0 ∧
    (init fun _ => 0).global_thursday_timectr_sec = 0 ∧
    timesOut idleTimeout (init fun _ => 0) = true ∧
    (main_loop idleTimeout (init fun _ => 0)).1.global_thursday_mode = 0 ∧
    (main_loop idleTimeout (init fun _ => 0)).1.global_thursday_timectr_sec = 4 := by
  refine ⟨by decide, by decide, by decide, by decide, by decide⟩

/-- C8, amended.  The counter is 0 right after every `set_thursday_mode` call.  An iteration
that does not time out leaves the counter as it was, or at 0 if its toggle path called
`set_thursday_mode`.  A timeout iteration adds `TIMEOUT_SEC` = 4 to that value, whether
thursday mode is enabled or not, and puts the counter back to 0 when the sum reaches
18000. -/
theorem thursday_counter_step (m : Nat) (inp : Input) (s : State) :
    (set_thursday_mode m s).1.global_thursday_timectr_sec = 0 ∧
    (timesOut inp s = false →
      (main_loop inp s).1.global_thursday_timectr_sec
        = (if toggles inp s then 0 else s.global_thursday_timectr_sec)) ∧
    (timesOut inp s = true →
      (main_loop inp s).1.global_thursday_timectr_sec
        = (if 18000 ≤ ((if toggles inp s then 0 else s.global_thursday_timectr_sec) + 4) % 65536
            then 0
            else ((if toggles inp s then 0 else s.global_thursday_timectr_sec) + 4) % 65536)) := by
  refine ⟨?_, ?_, ?_⟩
  · simp only [set_thursday_mode]; split_ifs <;> rfl
  · intro h
    rw [main_loop_counter, h]
    rfl
  · intro h
    rw [main_loop_counter, h]
    rfl

/-! ## C9: the toggle latch -/

theorem toggles_of_latched (inp : Input) (s : State) (h : s.thursday_toggle_timeout ≠ 0) :
    toggles inp s = false := by
  obtain ⟨-, -, h3, -, -, -, -⟩ := hob_frame inp.pinc_open s
  simp only [toggles, toggleFires, h3, h, decide_False, Bool.and_false]

/-- One iteration that does not time out: the latch is 1 if the toggle path fired and is
otherwise as before, and `set_thursday_mode` is entered once if the toggle path fired and
not at all otherwise. -/
theorem main_loop_latch (inp : Input) (s : State) (h : timesOut inp s = false) :
    (main_loop inp s).1.thursday_toggle_timeout
      = (if toggles inp s then 1 else s.thursday_toggle_timeout) ∧
    (main_loop inp s).2.countP isSetThu = (if toggles inp s then 1 else 0) := by
  obtain ⟨-, -, p3, -, p5⟩ := pollButtons_thursday inp s
  rw [main_loop_else_step inp s h]
  obtain ⟨-, -, f3⟩ := elseBranch_thursday_frame inp (readTCNT1 inp.ticks159 (pollButtons inp s).1)
  have hS := doorEvent_no_setThu
    (elseBranch_doorEvent inp (readTCNT1 inp.ticks159 (pollButtons inp s).1))
  exact ⟨f3.trans p3, by simp only [List.countP_append, p5, hS, Nat.add_zero]⟩

/-- A run without timeout that starts with the latch set never enters `set_thursday_mode`
and keeps the latch. -/
theorem run_latched (is : List Input) : ∀ s : State, timeouts s is = 0 →
    s.thursday_toggle_timeout ≠ 0 →
    (run s is).2.countP isSetThu = 0 ∧ toggleCount s is = 0 ∧
    (run s is).1.thursday_toggle_timeout = s.thursday_toggle_timeout := by
  induction is with
  | nil => intro s _ _; exact ⟨rfl, rfl, rfl⟩
  | cons i is ih =>
    intro s ht hl
    simp only [timeouts, Nat.add_eq_zero] at ht
    have hto : timesOut i s = false := by
      by_cases h : timesOut i s = true
      · simp [h] at ht
      · simpa using h
    have htg := toggles_of_latched i s hl
    obtain ⟨l1, c1⟩ := main_loop_latch i s hto
    simp only [htg, Bool.false_eq_true, if_false] at l1 c1
    obtain ⟨a, b, c⟩ := ih (main_loop i s).1 ht.2 (by rw [l1]; exact hl)
    refine ⟨?_, ?_, ?_⟩
    · simp only [run, List.countP_append, c1, a]
    · simp only [toggleCount, htg, b, Bool.false_eq_true, if_false]
    · simp only [run]
      rw [c, l1]

/-- A run without timeout enters `set_thursday_mode` as often as the toggle path fires,
which is at most once, and if it fired the latch is 1 at the end. -/
theorem run_toggles_once (is : List Input) : ∀ s : State, timeouts s is = 0 →
    (run s is).2.countP isSetThu = toggleCount s is ∧ toggleCount s is ≤ 1 ∧
    (toggleCount s is = 1 → (run s is).1.thursday_toggle_timeout = 1) := by
  induction is with
  | nil =>
    intro s _
    refine ⟨rfl, Nat.zero_le _, fun h => ?_⟩
    simp [toggleCount] at h
  | cons i is ih =>
    intro s ht
    simp only [timeouts, Nat.add_eq_zero] at ht
    have hto : timesOut i s = false := by
      by_cases h : timesOut i s = true
      · simp [h] at ht
      · simpa using h
    obtain ⟨l1, c1⟩ := main_loop_latch i s hto
    by_cases htg : toggles i s = true
    · simp only [htg, if_true] at l1 c1
      obtain ⟨a, b, c⟩ := run_latched is (main_loop i s).1 ht.2 (by rw [l1]; decide)
      refine ⟨?_, ?_, ?_⟩
      · simp only [run, toggleCount, List.countP_append, c1, a, htg, if_true, b]
      · simp only [toggleCount, htg, if_true, b]
        exact le_refl _
      · intro _
        simp only [run]
        rw [c, l1]
    · have htg' : toggles i s = false := by simpa using htg
      simp only [htg', Bool.false_eq_true, if_false] at l1 c1
      obtain ⟨a, b, c⟩ := ih (main_loop i s).1 ht.2
      refine ⟨?_, ?_, ?_⟩
      · simp only [run, toggleCount, List.countP_append, c1, a, htg', Bool.false_eq_true,
          if_false, Nat.zero_add]
      · simp only [toggleCount, htg', Bool.false_eq_true, if_false, Nat.zero_add]
        exact b
      · intro h1
        simp only [toggleCount, htg', Bool.false_eq_true, if_false, Nat.zero_add] at h1
        simp only [run]
        exact c h1

/-- C9. Over every sequence of iterations that contains no timeout iteration,
`set_thursday_mode` is entered at most once, whatever the thursday button reads; it is
entered exactly as often as the toggle path fires; if it was entered the latch is 1
afterwards; and if the latch was already set at the start it is not entered at all and the
latch keeps its value.  The latch changes only in two places: an iteration without timeout
sets it to 1 exactly when the toggle fires and otherwise leaves it alone, and a timeout
iteration clears it. -/
theorem toggle_latched_once_per_window (s : State) (is : List Input)
    (h : timeouts s is = 0) :
    (run s is).2.countP isSetThu ≤ 1 ∧
    (run s is).2.countP isSetThu = toggleCount s is ∧
    (toggleCount s is = 1 → (run s is).1.thursday_toggle_timeout = 1) ∧
    (s.thursday_toggle_timeout ≠ 0 →
      (run s is).2.countP isSetThu = 0 ∧
      (run s is).1.thursday_toggle_timeout = s.thursday_toggle_timeout) ∧
    (∀ (inp : Input) (t : State), timesOut inp t = false →
      (main_loop inp t).1.thursday_toggle_timeout
        = (if toggles inp t then 1 else t.thursday_toggle_timeout)) ∧
    (∀ (inp : Input) (t : State), timesOut inp t = true →
      (main_loop inp t).1.thursday_toggle_timeout = 0) := by
  obtain ⟨a, b, c⟩ := run_toggles_once is s h
  refine ⟨by rw [a]; exact b, a, c, ?_, ?_, ?_⟩
  · intro hl
    obtain ⟨x, -, z⟩ := run_latched is s h hl
    exact ⟨x, z⟩
  · intro inp t ht
    exact (main_loop_latch inp t ht).1
  · intro inp t ht
    rw [main_loop_timeout_step inp t ht]
    exact (timeoutBranch_state _ _).2.2.1

/-- C9 at a concrete input: from loop entry the thursday button reads pressed in three
successive iterations without timeout; `set_thursday_mode` is entered once. -/
theorem toggle_latched_once_per_window_witness :
    timeouts (init fun _ => 0) [togglePressed 1 0, togglePressed 1 0, togglePressed 1 0] = 0 ∧
    (run (init fun _ => 0)
      [togglePressed 1 0, togglePressed 1 0, togglePressed 1 0]).2.countP isSetThu = 1 ∧
    (run (init fun _ => 0)
      [togglePressed 1 0, togglePressed 1 0, togglePressed 1 0]).1.thursday_toggle_timeout = 1 := by
  have h := toggle_latched_once_per_window (init fun _ => 0)
    [togglePressed 1 0, togglePressed 1 0, togglePressed 1 0] (by decide)
  exact ⟨by decide, h.2.1.trans (by decide), h.2.2.1 (by decide)⟩

/-! ## C10: the manual-open button -/

theorem land_land_zero (x a b : Nat) (h : a &&& b = 0) : x &&& a &&& b = 0 := by
  rw [Nat.land_assoc, h]
  exact Nat.and_zero x

/-- If the first `k` polls of the loop of `ring()` pass (button not pressed, line high) and
poll `k` samples the button pressed, the loop delays `k` times, runs `OPEN` and `open()`,
and ends. -/
theorem ringLoop_pressed (btn bell : Nat → Nat) (k : Nat) : ∀ (n i0 : Nat) (s : State),
    k < n → (∀ j, j < k → btn (i0 + j) &&& 0x20 ≠ 0 ∧ bell (i0 + j) &&& 1 ≠ 0) →
    btn (i0 + k) &&& 0x20 = 0 →
    ringLoop btn bell n i0 s =
      ((open_ s).1, List.replicate k (Ev.delay 10) ++ Ev.tx Note.OPEN :: (open_ s).2) := by
  induction k with
  | zero =>
    intro n i0 s hn _ hp
    obtain ⟨n, rfl⟩ : ∃ m, n = m + 1 := ⟨n - 1, by omega⟩
    rw [Nat.add_zero] at hp
    rw [ringLoop, hob_pressed _ s hp]
    simp
  | succ k ih =>
    intro n i0 s hn hb hp
    obtain ⟨n, rfl⟩ : ∃ m, n = m + 1 := ⟨n - 1, by omega⟩
    obtain ⟨hb0, hl0⟩ := hb 0 (Nat.succ_pos k)
    rw [Nat.add_zero] at hb0 hl0
    have hrec := ih n (i0 + 1) s (by omega)
      (fun j hj => by
        have := hb (j + 1) (by omega)
        rwa [show i0 + (j + 1) = i0 + 1 + j by omega] at this)
      (by rwa [show i0 + (k + 1) = i0 + 1 + k by omega] at hp)
    rw [ringLoop, hob_idle _ s hb0]
    simp only [ne_eq, not_true_eq_false, if_false, hl0, hrec, List.nil_append,
      List.replicate_succ, List.cons_append]

/-- C10. (1) In every state, an iteration that samples the manual-open button pressed
starts by sending `OPEN` and running `open()` on the state as it was; the toggle poll and the
timeout/decoder dispatch follow, from the state `open()` left.  (2) Inside `ring()`, if
poll `i` (below `RING_DURATION_SEC*100`) is the first to sample the button pressed, every
earlier poll having passed the loop condition, then after `i` delays `ring()` sends `OPEN`,
runs `open()`, and does nothing more: the trace ends with the events of `open()`, and on
return the status-LED bit, the ring-relay bit and the opener-relay bit are clear. -/
theorem manual_open_honoured (inp : Input) (s : State) (btn bell : Nat → Nat) (i : Nat) :
    (inp.pinc_open &&& 0x20 = 0 →
      (main_loop inp s).2 =
        Ev.tx Note.OPEN :: Ev.openCall :: List.replicate 12 (Ev.delay 250) ++
          ((pollThursday inp (open_ s).1).2 ++
            (dispatch inp (pollThursday inp (open_ s).1).1).2) ∧
      (main_loop inp s).1 = (dispatch inp (pollThursday inp (open_ s).1).1).1) ∧
    (i < RING_DURATION_SEC * 100 →
      (∀ j, j < i → btn j &&& 0x20 ≠ 0 ∧ bell j &&& 1 ≠ 0) →
      btn i &&& 0x20 = 0 →
      (ring btn bell s).2 =
        Ev.ringCall :: Ev.tx Note.RING ::
          (List.replicate i (Ev.delay 10) ++
            Ev.tx Note.OPEN :: Ev.openCall :: List.replicate 12 (Ev.delay 250)) ∧
      (ring btn bell s).1.PORTB &&& 0x20 = 0 ∧
      (ring btn bell s).1.PORTC &&& 0x04 = 0 ∧
      (ring btn bell s).1.PORTC &&& 0x02 = 0) := by
  constructor
  · intro hb
    simp only [main_loop, pollButtons, hob_pressed _ s hb, open_trace, List.cons_append,
      List.append_assoc, and_self]
  · intro hi hbefore hpress
    have hl := ringLoop_pressed btn bell i (RING_DURATION_SEC * 100) 0
      { s with PORTB := s.PORTB ||| 0x20, PORTC := s.PORTC ||| 0x04 } hi
      (fun j hj => by simpa using hbefore j hj) (by simpa using hpress)
    have hr : ring btn bell s =
        ({ (ringLoop btn bell (RING_DURATION_SEC * 100) 0
              { s with PORTB := s.PORTB ||| 0x20, PORTC := s.PORTC ||| 0x04 }).1 with
            PORTB := (ringLoop btn bell (RING_DURATION_SEC * 100) 0
              { s with PORTB := s.PORTB ||| 0x20, PORTC := s.PORTC ||| 0x04 }).1.PORTB &&& 0xDF,
            PORTC := (ringLoop btn bell (RING_DURATION_SEC * 100) 0
              { s with PORTB := s.PORTB ||| 0x20, PORTC := s.PORTC ||| 0x04 }).1.PORTC &&& 0xFB },
          Ev.ringCall :: Ev.tx Note.RING :: (ringLoop btn bell (RING_DURATION_SEC * 100) 0
              { s with PORTB := s.PORTB ||| 0x20, PORTC := s.PORTC ||| 0x04 }).2) := rfl
    rw [hr, hl]
    refine ⟨by simp only [open_trace], land_land_zero _ _ _ (by decide),
      land_land_zero _ _ _ (by decide), ?_⟩
    show (blink (4 * OPEN_DURATION_SEC) _).1.PORTC &&& 0xFD &&& 0xFB &&& 0x02 = 0
    rw [Nat.land_assoc, Nat.land_assoc]
    have : (0xFD : Nat) &&& (0xFB &&& 0x02) = 0 := by decide
    rw [this]
    exact Nat.and_zero _

/-- C10 at concrete inputs: an iteration from loop entry with the button pressed, and a
`ring()` whose poll 3 is the first to sample the button pressed. -/
theorem manual_open_honoured_witness :
    (main_loop (openPressed 1 0) (init fun _ => 0)).2.take 2 = [Ev.tx Note.OPEN, Ev.openCall] ∧
    (ring pressAtThird (fun _ => 0x29) (init fun _ => 0)).2 =
      Ev.ringCall :: Ev.tx Note.RING ::
        (List.replicate 3 (Ev.delay 10) ++
          Ev.tx Note.OPEN :: Ev.openCall :: List.replicate 12 (Ev.delay 250)) := by
  have h := manual_open_honoured (openPressed 1 0) (init fun _ => 0) pressAtThird
    (fun _ => 0x29) 3
  refine ⟨?_, (h.2 (by decide) (by decide) (by decide)).1⟩
  rw [(h.1 (by decide)).1]
  rfl

/-! ## Output registers across `open()` and `ring()` -/

theorem or_land_disjoint (x a b : Nat) (h : a &&& b = 0) : (x ||| a) &&& b = x &&& b := by
  rw [Nat.and_comm, Nat.and_or_distrib_left, Nat.and_comm b a, h, Nat.or_zero, Nat.and_comm]

theorem land_land_cover (x a b : Nat) (h : a &&& b = b) : x &&& a &&& b = x &&& b := by
  rw [Nat.land_assoc, h]

theorem blink_ports (n : Nat) (s : State) :
    (blink n s).1.PORTC = s.PORTC ∧
    (blink n s).1.PORTB = (if n % 2 = 0 then s.PORTB else s.PORTB ^^^ 0x20) := by
  induction n generalizing s with
  | zero => exact ⟨rfl, rfl⟩
  | succ n ih =>
    obtain ⟨h1, h2⟩ := ih { s with PORTB := s.PORTB ^^^ 0x20 }
    refine ⟨h1, ?_⟩
    show (blink n { s with PORTB := s.PORTB ^^^ 0x20 }).1.PORTB = _
    rw [h2]
    by_cases hn : n % 2 = 0
    · have : ¬ (n + 1) % 2 = 0 := by omega
      simp only [hn, this, if_true, if_false]
    · have : (n + 1) % 2 = 0 := by omega
      simp only [hn, this, if_true, if_false]
      exact Nat.xor_cancel_right _ _

theorem open_ports (s : State) :
    (open_ s).1.PORTB = s.PORTB ∧ (open_ s).1.PORTC = (s.PORTC ||| 0x02) &&& 0xFD := by
  obtain ⟨h1, h2⟩ := blink_ports (4 * OPEN_DURATION_SEC) { s with PORTC := s.PORTC ||| 0x02 }
  refine ⟨?_, ?_⟩
  · show (blink (4 * OPEN_DURATION_SEC) { s with PORTC := s.PORTC ||| 0x02 }).1.PORTB = _
    rw [h2]
    rfl
  · show (blink (4 * OPEN_DURATION_SEC) { s with PORTC := s.PORTC ||| 0x02 }).1.PORTC &&& 0xFD = _
    rw [h1]

/-- The loop of `ring()` returns either the state it was entered with or that state after
one `open()`. -/
theorem ringLoop_state (btn bell : Nat → Nat) (n i : Nat) (s : State) :
    (ringLoop btn bell n i s).1 = s ∨ (ringLoop btn bell n i s).1 = (open_ s).1 := by
  induction n generalizing i with
  | zero => exact Or.inl rfl
  | succ n ih =>
    by_cases hb : btn i &&& 0x20 = 0
    · right
      rw [ringLoop, hob_pressed _ s hb]
      simp
    · by_cases hl : bell i &&& 1 = 0
      · left
        rw [ringLoop, hob_idle _ s hb]
        simp only [ne_eq, not_true_eq_false, if_false, hl, if_true]
      · rw [ringLoop, hob_idle _ s hb]
        simp only [ne_eq, not_true_eq_false, if_false, hl]
        exact ih (i + 1)

theorem ring_ports (btn bell : Nat → Nat) (s : State) :
    ((ring btn bell s).1.PORTB = (s.PORTB ||| 0x20) &&& 0xDF ∧
      (ring btn bell s).1.PORTC = (s.PORTC ||| 0x04) &&& 0xFB) ∨
    ((ring btn bell s).1.PORTB = (s.PORTB ||| 0x20) &&& 0xDF ∧
      (ring btn bell s).1.PORTC = ((s.PORTC ||| 0x04) ||| 0x02) &&& 0xFD &&& 0xFB) := by
  have hr : (ring btn bell s).1.PORTB =
        (ringLoop btn bell (RING_DURATION_SEC * 100) 0
          { s with PORTB := s.PORTB ||| 0x20, PORTC := s.PORTC ||| 0x04 }).1.PORTB &&& 0xDF ∧
      (ring btn bell s).1.PORTC =
        (ringLoop btn bell (RING_DURATION_SEC * 100) 0
          { s with PORTB := s.PORTB ||| 0x20, PORTC := s.PORTC ||| 0x04 }).1.PORTC &&& 0xFB :=
    ⟨rfl, rfl⟩
  rcases ringLoop_state btn bell (RING_DURATION_SEC * 100) 0
    { s with PORTB := s.PORTB ||| 0x20, PORTC := s.PORTC ||| 0x04 } with h | h
  · left
    rw [hr.1, hr.2, h]
    exact ⟨rfl, rfl⟩
  · right
    obtain ⟨o1, o2⟩ := open_ports { s with PORTB := s.PORTB ||| 0x20, PORTC := s.PORTC ||| 0x04 }
    rw [hr.1, hr.2, h, o1, o2]
    exact ⟨rfl, rfl⟩

/-- With the manual-open button never sampled pressed, the first `k` polls seeing the line
high and poll `k` seeing it low, the loop of `ring()` delays `k` times and ends. -/
theorem ringLoop_line_low (btn bell : Nat → Nat) (hb : ∀ i, btn i &&& 0x20 ≠ 0) (k : Nat) :
    ∀ (n i0 : Nat) (s : State), k < n → (∀ j, j < k → bell (i0 + j) &&& 1 ≠ 0) →
    bell (i0 + k) &&& 1 = 0 →
    ringLoop btn bell n i0 s = (s, List.replicate k (Ev.delay 10)) := by
  induction k with
  | zero =>
    intro n i0 s hn _ hl
    obtain ⟨n, rfl⟩ : ∃ m, n = m + 1 := ⟨n - 1, by omega⟩
    rw [Nat.add_zero] at hl
    rw [ringLoop, hob_idle _ s (hb i0)]
    simp only [ne_eq, not_true_eq_false, if_false, hl, if_true, List.replicate_zero]
  | succ k ih =>
    intro n i0 s hn hh hl
    obtain ⟨n, rfl⟩ : ∃ m, n = m + 1 := ⟨n - 1, by omega⟩
    have h0 := hh 0 (Nat.succ_pos k)
    rw [Nat.add_zero] at h0
    have hrec := ih n (i0 + 1) s (by omega)
      (fun j hj => by
        have := hh (j + 1) (by omega)
        rwa [show i0 + (j + 1) = i0 + 1 + j by omega] at this)
      (by rwa [show i0 + (k + 1) = i0 + 1 + k by omega] at hl)
    rw [ringLoop, hob_idle _ s (hb i0)]
    simp only [ne_eq, not_true_eq_false, if_false, h0, hrec, List.nil_append,
      List.replicate_succ]

/-- With neither exit condition occurring in the first `n` polls, the loop of `ring()`
delays `n` times. -/
theorem ringLoop_full (btn bell : Nat → Nat) (n : Nat) : ∀ (i0 : Nat) (s : State),
    (∀ j, j < n → btn (i0 + j) &&& 0x20 ≠ 0 ∧ bell (i0 + j) &&& 1 ≠ 0) →
    ringLoop btn bell n i0 s = (s, List.replicate n (Ev.delay 10)) := by
  induction n with
  | zero => intro i0 s _; rfl
  | succ n ih =>
    intro i0 s hh
    obtain ⟨hb0, hl0⟩ := hh 0 (Nat.succ_pos n)
    rw [Nat.add_zero] at hb0 hl0
    have hrec := ih (i0 + 1) s (fun j hj => by
      have := hh (j + 1) (by omega)
      rwa [show i0 + (j + 1) = i0 + 1 + j by omega] at this)
    rw [ringLoop, hob_idle _ s hb0]
    simp only [ne_eq, not_true_eq_false, if_false, hl0, hrec, List.nil_append,
      List.replicate_succ]

/-! ## C11: when `ring()` stops on the doorbell line -/

/-- C11 as stated fails.  With the manual-open button not pressed, the doorbell line reads
high (idle) at polls 0 and 1 and low (pressed) at poll 2: `ring()` does not stop at the
idle polls, and stops at poll 2, the first that reads the line pressed, after two
delays. -/
theorem ring_stops_when_line_goes_low :
    bellLowFromSecond 0 &&& 1 = 1 ∧ bellLowFromSecond 1 &&& 1 = 1 ∧
    bellLowFromSecond 2 &&& 1 = 0 ∧
    (ring (fun _ => 0x29) bellLowFromSecond (init fun _ => 0)).2 =
      [Ev.ringCall, Ev.tx Note.RING, Ev.delay 10, Ev.delay 10] := by
  refine ⟨by decide, by decide, by decide, by decide⟩

/-- C11, amended.  With the manual-open button not pressed at any poll, `ring()` keeps
ringing while the doorbell line reads high (`PINC & 1` nonzero, idle in the active-low
mapping) and stops at the first poll at which it reads low (pressed): if poll `k` is the
first to read low, `ring()` performs exactly `k` delays; if the line reads high at all
`RING_DURATION_SEC*100` polls, it performs all 2000 delays. -/
theorem ring_runs_while_line_high (btn bell : Nat → Nat) (s : State)
    (hb : ∀ i, btn i &&& 0x20 ≠ 0) :
    (∀ k, k < RING_DURATION_SEC * 100 → (∀ j, j < k → bell j &&& 1 ≠ 0) → bell k &&& 1 = 0 →
      (ring btn bell s).2 = Ev.ringCall :: Ev.tx Note.RING :: List.replicate k (Ev.delay 10)) ∧
    ((∀ j, j < RING_DURATION_SEC * 100 → bell j &&& 1 ≠ 0) →
      (ring btn bell s).2 =
        Ev.ringCall :: Ev.tx Note.RING :: List.replicate 2000 (Ev.delay 10)) := by
  have hr : (ring btn bell s).2 = Ev.ringCall :: Ev.tx Note.RING ::
      (ringLoop btn bell (RING_DURATION_SEC * 100) 0
        { s with PORTB := s.PORTB ||| 0x20, PORTC := s.PORTC ||| 0x04 }).2 := rfl
  constructor
  · intro k hk hhigh hlow
    rw [hr, ringLoop_line_low btn bell hb k _ 0 _ hk (fun j hj => by simpa using hhigh j hj)
      (by simpa using hlow)]
  · intro hhigh
    rw [hr, ringLoop_full btn bell _ 0 _ (fun j hj => ⟨hb _, by simpa using hhigh j hj⟩)]
    rfl

/-- C11 amended, at a concrete input: the line reads high at polls 0 and 1 and low at
poll 2. -/
theorem ring_runs_while_line_high_witness :
    (ring (fun _ => 0x29) bellLowFromSecond (init fun _ => 0)).2 =
      Ev.ringCall :: Ev.tx Note.RING :: List.replicate 2 (Ev.delay 10) :=
  (ring_runs_while_line_high (fun _ => 0x29) bellLowFromSecond (init fun _ => 0)
    (fun _ => by show (0x29 : Nat) &&& 0x20 ≠ 0; decide)).1 2 (by decide)
    (fun j hj => by
      have : j = 0 ∨ j = 1 := by omega
      rcases this with rfl | rfl <;> decide)
    (by decide)

/-! ## C18: `ring()` is bounded -/

theorem hob_no_short_delay (pinc : Nat) (s : State) :
    (handle_open_button pinc s).2.2.count (Ev.delay 10) = 0 := by
  by_cases hb : pinc &&& 0x20 = 0
  · rw [hob_pressed _ s hb, open_trace]
    simp [List.count_replicate]
  · rw [hob_idle _ s hb]
    rfl

theorem ringLoop_delays_le (btn bell : Nat → Nat) (n : Nat) : ∀ (i : Nat) (s : State),
    (ringLoop btn bell n i s).2.count (Ev.delay 10) ≤ n := by
  induction n with
  | zero => intro i s; exact Nat.le_refl 0
  | succ n ih =>
    intro i s
    have h0 := hob_no_short_delay (btn i) s
    unfold ringLoop
    simp only []
    split_ifs
    · rw [h0]; exact Nat.zero_le _
    · rw [h0]; exact Nat.zero_le _
    · have := ih (i + 1) (handle_open_button (btn i) s).2.1
      simp only [List.count_append, h0, List.count_cons_self, Nat.zero_add]
      omega

/-- The loop of `ring()` with `n` rounds to go reads only the samples of polls
`i .. i + n - 1`. -/
theorem ringLoop_congr (btn bell btn' bell' : Nat → Nat) (n : Nat) : ∀ (i : Nat) (s : State),
    (∀ j, j < n → btn (i + j) = btn' (i + j) ∧ bell (i + j) = bell' (i + j)) →
    ringLoop btn bell n i s = ringLoop btn' bell' n i s := by
  induction n with
  | zero => intro i s _; rfl
  | succ n ih =>
    intro i s h
    obtain ⟨e1, e2⟩ := h 0 (Nat.succ_pos n)
    rw [Nat.add_zero] at e1 e2
    have hrec := fun t => ih (i + 1) t (fun j hj => by
      have := h (j + 1) (by omega)
      rwa [show i + (j + 1) = i + 1 + j by omega] at this)
    rw [ringLoop, ringLoop, e1, e2]
    simp only [hrec]

/-- C18. `ring()` always returns (the model is a total function), and for every input
trace: it performs at most `RING_DURATION_SEC*100` = 2000 delays of 10 ms; it reads only the
samples of polls 0..1999, so two traces that agree there give the same result; and when
neither exit condition occurs at any of these polls (button never pressed, line always
high) it performs exactly 2000 delays of 10 ms and nothing else after `RING`. -/
theorem ring_bounded (btn bell btn' bell' : Nat → Nat) (s : State) :
    RING_DURATION_SEC * 100 = 2000 ∧
    (ring btn bell s).2.count (Ev.delay 10) ≤ 2000 ∧
    ((∀ j, j < 2000 → btn j = btn' j ∧ bell j = bell' j) →
      ring btn bell s = ring btn' bell' s) ∧
    ((∀ j, j < 2000 → btn j &&& 0x20 ≠ 0 ∧ bell j &&& 1 ≠ 0) →
      (ring btn bell s).2.count (Ev.delay 10) = 2000 ∧
      (ring btn bell s).2 =
        Ev.ringCall :: Ev.tx Note.RING :: List.replicate 2000 (Ev.delay 10)) := by
  have hr : ∀ b l : Nat → Nat, ring b l s =
      ({ (ringLoop b l (RING_DURATION_SEC * 100) 0
            { s with PORTB := s.PORTB ||| 0x20, PORTC := s.PORTC ||| 0x04 }).1 with
          PORTB := (ringLoop b l (RING_DURATION_SEC * 100) 0
            { s with PORTB := s.PORTB ||| 0x20, PORTC := s.PORTC ||| 0x04 }).1.PORTB &&& 0xDF,
          PORTC := (ringLoop b l (RING_DURATION_SEC * 100) 0
            { s with PORTB := s.PORTB ||| 0x20, PORTC := s.PORTC ||| 0x04 }).1.PORTC &&& 0xFB },
        Ev.ringCall :: Ev.tx Note.RING :: (ringLoop b l (RING_DURATION_SEC * 100) 0
            { s with PORTB := s.PORTB ||| 0x20, PORTC := s.PORTC ||| 0x04 }).2) :=
    fun _ _ => rfl
  refine ⟨rfl, ?_, ?_, ?_⟩
  · have := ringLoop_delays_le btn bell (RING_DURATION_SEC * 100) 0
      { s with PORTB := s.PORTB ||| 0x20, PORTC := s.PORTC ||| 0x04 }
    rw [hr]
    simpa using this
  · intro h
    rw [hr btn bell, hr btn' bell',
      ringLoop_congr btn bell btn' bell' (RING_DURATION_SEC * 100) 0 _
        (fun j hj => by simpa using h j hj)]
  · intro h
    have hfull := ringLoop_full btn bell (RING_DURATION_SEC * 100) 0
      { s with PORTB := s.PORTB ||| 0x20, PORTC := s.PORTC ||| 0x04 }
      (fun j hj => by simpa using h j hj)
    rw [hr, hfull]
    refine ⟨?_, rfl⟩
    show (Ev.ringCall :: Ev.tx Note.RING ::
      List.replicate (RING_DURATION_SEC * 100) (Ev.delay 10)).count (Ev.delay 10) = 2000
    rw [List.count_cons_of_ne (by decide), List.count_cons_of_ne (by decide),
      List.count_replicate_self]
    rfl

/-- C18 at a concrete input: button never pressed and line always high. -/
theorem ring_bounded_witness :
    (ring (fun _ => 0x29) (fun _ => 0x29) (init fun _ => 0)).2.count (Ev.delay 10) = 2000 :=
  ((ring_bounded (fun _ => 0x29) (fun _ => 0x29) (fun _ => 0x29) (fun _ => 0x29)
    (init fun _ => 0)).2.2.2 (fun _ _ => ⟨by decide, by decide⟩)).1

/-! ## C16: `set_thursday_mode` is idempotent -/

set_option maxRecDepth 100000 in
theorem byte_indicator_bit : ∀ x, x < 256 →
    (x &&& 0x10 = 0 → x &&& 0xEF = x) ∧ (x &&& 0x10 ≠ 0 → x ||| 0x10 = x) := by
  decide

/-- C16. For every mode value `m` and every prior state, a second `set_thursday_mode(m)`
leaves the whole state exactly as the first call left it, with the flag equal to `m` and
the elapsed counter 0.  In particular, when the flag already holds `m` and the indicator
bit `0x10` of the 8-bit register `PORTC` already shows it, the call changes nothing but the
elapsed counter, which it puts back to 0. -/
theorem set_thursday_mode_idempotent (m : Nat) (s : State) :
    (set_thursday_mode m (set_thursday_mode m s).1).1 = (set_thursday_mode m s).1 ∧
    (set_thursday_mode m s).1.global_thursday_mode = m ∧
    (set_thursday_mode m s).1.global_thursday_timectr_sec = 0 ∧
    (s.global_thursday_mode = m → s.PORTC < 256 → (s.PORTC &&& 0x10 ≠ 0 ↔ m ≠ 0) →
      (set_thursday_mode m s).1 = { s with global_thursday_timectr_sec := 0 }) := by
  by_cases hm : m = 0
  · subst hm
    refine ⟨?_, rfl, rfl, ?_⟩
    · simp only [set_thursday_mode, ne_eq, not_true_eq_false, if_false]
      rw [land_land_cover _ _ _ (by decide)]
    · intro hmode hlt hbit
      have h0 : s.PORTC &&& 0x10 = 0 := by
        by_contra h
        exact (hbit.mp h) rfl
      have := (byte_indicator_bit s.PORTC hlt).1 h0
      simp only [set_thursday_mode, ne_eq, not_true_eq_false, if_false, this]
      rw [← hmode]
  · refine ⟨?_, ?_, ?_, ?_⟩
    · simp only [set_thursday_mode, ne_eq, hm, not_false_eq_true, if_true]
      rw [Nat.or_assoc, Nat.or_self]
    · simp only [set_thursday_mode, ne_eq, hm, not_false_eq_true, if_true]
    · simp only [set_thursday_mode, ne_eq, hm, not_false_eq_true, if_true]
    · intro hmode hlt hbit
      have := (byte_indicator_bit s.PORTC hlt).2 (hbit.mpr hm)
      simp only [set_thursday_mode, ne_eq, hm, not_false_eq_true, if_true, this]
      rw [← hmode]

/-- C16 at a concrete state: thursday mode switched on from the console, then
`set_thursday_mode(1)` again. -/
theorem set_thursday_mode_idempotent_witness :
    (set_thursday_mode 1 thursdayOn).1 = { thursdayOn with global_thursday_timectr_sec := 0 } :=
  (set_thursday_mode_idempotent 1 thursdayOn).2.2.2 (by decide) (by decide) (by decide)

/-! ## C17: an iteration that sees nothing -/

/-- C17. In an iteration that does not time out, with the manual-open button and the
thursday button both sampled not pressed, the auto-open condition false, and the sampled
doorbell level different from `pidx mod 2`: nothing is emitted and the state is as before,
except that the model's `TCNT1` holds the value the free-running timer was read at; the
program does not write the clock, and `pidx`, `pattern`, `codefail`, the toggle latch, the
thursday flag and counter and both output registers are unchanged. -/
theorem idle_mismatch_changes_nothing (inp : Input) (s : State)
    (hclock : reading159 inp s ≤ 62500)
    (hopen : inp.pinc_open &&& 0x20 ≠ 0)
    (hthu : inp.pinc_thu &&& 0x08 ≠ 0)
    (hauto : ¬ (s.global_thursday_mode ≠ 0 ∧ inp.pinc_bell &&& 1 = 0))
    (hlevel : inp.pinc_bell % 2 ≠ s.pidx % 2) :
    main_loop inp s = ({ s with TCNT1 := (s.TCNT1 + inp.ticks159) % 65536 }, []) ∧
    (main_loop inp s).2 = [] ∧
    (main_loop inp s).1.pidx = s.pidx ∧ (main_loop inp s).1.pattern = s.pattern ∧
    (main_loop inp s).1.codefail = s.codefail ∧
    (main_loop inp s).1.thursday_toggle_timeout = s.thursday_toggle_timeout ∧
    (main_loop inp s).1.global_thursday_mode = s.global_thursday_mode ∧
    (main_loop inp s).1.global_thursday_timectr_sec = s.global_thursday_timectr_sec ∧
    (main_loop inp s).1.TCNT1 = reading159 inp s := by
  have ht : toggleFires inp s = false := by
    simp only [toggleFires, hthu, decide_False, Bool.false_and]
  have hp : pollButtons inp s = (s, []) := by
    rw [pollButtons_idle inp s hopen, pollThursday_rests inp s ht]
  have hd := dispatch_else inp (pollButtons inp s).1 hclock
  have hl : ¬ (inp.pinc_bell &&& 1 = s.pidx &&& 1) := by
    rw [Nat.and_one_is_mod, Nat.and_one_is_mod]
    exact hlevel
  have he : elseBranch inp (readTCNT1 inp.ticks159 s) = (readTCNT1 inp.ticks159 s, []) := by
    have hauto' : ¬ ((readTCNT1 inp.ticks159 s).global_thursday_mode ≠ 0 ∧
        inp.pinc_bell &&& 1 = 0) := hauto
    have hl' : ¬ (inp.pinc_bell &&& 1 = (readTCNT1 inp.ticks159 s).pidx &&& 1) := hl
    unfold elseBranch
    simp only []
    rw [if_neg hauto', if_neg hl']
  have hm : main_loop inp s = ({ s with TCNT1 := (s.TCNT1 + inp.ticks159) % 65536 }, []) := by
    have : main_loop inp s = ((dispatch inp (pollButtons inp s).1).1,
        (pollButtons inp s).2 ++ (dispatch inp (pollButtons inp s).1).2) := rfl
    rw [this, hd, hp, he]
    rfl
  have hr : reading159 inp s = (s.TCNT1 + inp.ticks159) % 65536 := by
    show (readTCNT1 inp.ticks159 (pollButtons inp s).1).TCNT1 = _
    rw [hp]
    rfl
  rw [hm, hr]
  exact ⟨rfl, rfl, rfl, rfl, rfl, rfl, rfl, rfl, rfl⟩

/-- C17 at a concrete input: one sample buffered (`pidx = 1`) and the doorbell still held
low 100 ticks later. -/
theorem idle_mismatch_changes_nothing_witness :
    (main_loop (quiet 0 100) onePress).2 = [] ∧
    (main_loop (quiet 0 100) onePress).1.pidx = 1 ∧
    (main_loop (quiet 0 100) onePress).1.TCNT1 = 100 := by
  have h := idle_mismatch_changes_nothing (quiet 0 100) onePress (by decide) (by decide)
    (by decide) (by decide) (by decide)
  exact ⟨h.2.1, h.2.2.1.trans (by decide), h.2.2.2.2.2.2.2.2.trans (by decide)⟩

/-! ## Executions from startup -/

theorem exec_append (s : State) (ts us : List Step) :
    exec s (ts ++ us) = exec (exec s ts) us := by
  induction ts generalizing s with
  | nil => rfl
  | cons t ts ih => exact ih (step t s)

/-- An invariant that holds at loop entry and is kept by every step holds after every
execution. -/
theorem exec_invariant (P : State → Prop) (hstep : ∀ t s, P s → P (step t s))
    (ts : List Step) : ∀ s, P s → P (exec s ts) := by
  induction ts with
  | nil => intro s h; exact h
  | cons t ts ih => intro s h; exact ih _ (hstep t s h)

theorem exec_reachable (g : Fin 7 → Nat) (ts : List Step) : Reachable (exec (init g) ts) := by
  refine exec_invariant Reachable ?_ ts _ (Reachable.start g)
  intro t s h
  cases t with
  | iter inp => exact Reachable.loop inp h
  | cmd c => exact Reachable.command c h

/-! ## C19: the buffer index stays in 0..5 -/

theorem console_decoder_vars (c : Command) (s : State) :
    (console c s).1.pattern = s.pattern ∧ (console c s).1.pidx = s.pidx := by
  cases c with
  | open_ =>
    obtain ⟨o1, o2, -, -, -, -, -⟩ := open_frame s
    exact ⟨o1, o2⟩
  | help => exact ⟨rfl, rfl⟩
  | thursday_on => exact ⟨rfl, rfl⟩
  | thursday_off => exact ⟨rfl, rfl⟩

theorem store_other (p : Fin 7 → Nat) (i v : Nat) (k : Fin 7) (h : k.val ≠ i) :
    store p i v k = p k := by
  unfold store
  split_ifs with hi
  · have hne : k ≠ ⟨i, hi⟩ := fun e => h (congrArg Fin.val e)
    exact Function.update_noteq hne v p
  · rfl

theorem timeoutBranch_decoder_vars (inp : Input) (s : State) :
    (timeoutBranch inp s).1.pattern = s.pattern := by
  obtain ⟨r1, -, -, -, -, -, -⟩ := ring_frame inp.ring_open inp.ring_bell s
  unfold timeoutBranch
  simp only []
  split_ifs <;> simp [set_thursday_mode, r1]

theorem decoder_decoder_vars (inp : Input) (s : State) :
    (∀ k : Fin 7, k.val ≠ s.pidx → (decoder inp s).1.pattern k = s.pattern k) ∧
    (s.pidx ≤ 5 → (decoder inp s).1.pidx ≤ 5) := by
  by_cases hv : 157 ≤ (readTCNT1 inp.ticks179 s).TCNT1
  · obtain ⟨a1, -, a3⟩ := decoder_accepts inp s hv
    refine ⟨fun k hk => ?_, fun hp => ?_⟩
    · rw [a1]; exact store_other _ _ _ k hk
    · rw [a3]
      split_ifs with h6
      · exact Nat.zero_le _
      · have : (s.pidx + 1) % 256 = s.pidx + 1 := Nat.mod_eq_of_lt (by omega)
        omega
  · rw [decoder_short inp s (by omega)]
    exact ⟨fun _ _ => rfl, fun hp => hp⟩

theorem elseBranch_decoder_vars (inp : Input) (s : State) :
    (∀ k : Fin 7, k.val ≠ s.pidx → (elseBranch inp s).1.pattern k = s.pattern k) ∧
    (s.pidx ≤ 5 → (elseBranch inp s).1.pidx ≤ 5) := by
  unfold elseBranch
  simp only []
  split_ifs
  · obtain ⟨o1, o2, -, -, -, -, -⟩ := open_frame s
    exact ⟨fun k _ => by rw [o1], fun hp => by rw [o2]; exact hp⟩
  · exact decoder_decoder_vars inp s
  · exact ⟨fun _ _ => rfl, fun hp => hp⟩

/-- One iteration changes at most slot `pidx` of `pattern`, and keeps the index in 0..5. -/
theorem main_loop_decoder_vars (inp : Input) (s : State) :
    (∀ k : Fin 7, k.val ≠ s.pidx → (main_loop inp s).1.pattern k = s.pattern k) ∧
    (s.pidx ≤ 5 → (main_loop inp s).1.pidx ≤ 5) := by
  obtain ⟨hpat, hpi, -⟩ := pollButtons_decoder_vars inp s
  by_cases h : timesOut inp s = true
  · rw [main_loop_timeout_step inp s h]
    refine ⟨fun k _ => ?_, fun _ => ?_⟩
    · rw [timeoutBranch_decoder_vars]
      show (pollButtons inp s).1.pattern k = _
      rw [hpat]
    · rw [(timeoutBranch_state _ _).1]
      exact Nat.zero_le _
  · have h' : timesOut inp s = false := by simpa using h
    rw [main_loop_else_step inp s h']
    obtain ⟨e1, e2⟩ := elseBranch_decoder_vars inp (readTCNT1 inp.ticks159 (pollButtons inp s).1)
    have hrp : (readTCNT1 inp.ticks159 (pollButtons inp s).1).pidx = s.pidx := hpi
    have hrpat : (readTCNT1 inp.ticks159 (pollButtons inp s).1).pattern = s.pattern := hpat
    rw [hrp] at e1 e2
    refine ⟨fun k hk => ?_, e2⟩
    rw [e1 k hk, hrpat]

/-- C19. After every execution from startup (loop iterations on any inputs and console
commands, from any initial contents `g` of `pattern`) the buffer index is in 0..5, hence
below the 7 slots of `pattern`; an iteration changes no slot of `pattern` other than slot
`pidx`; and slot 6 still holds the initial contents `g 6`: it is never written. -/
theorem buffer_index_in_range (g : Fin 7 → Nat) (ts : List Step) :
    (exec (init g) ts).pidx ≤ 5 ∧
    (∀ (inp : Input) (k : Fin 7), k.val ≠ (exec (init g) ts).pidx →
      (main_loop inp (exec (init g) ts)).1.pattern k = (exec (init g) ts).pattern k) ∧
    (∀ (inp : Input),
      (main_loop inp (exec (init g) ts)).1.pattern 6 = (exec (init g) ts).pattern 6) ∧
    (exec (init g) ts).pattern 6 = g 6 := by
  have key : (exec (init g) ts).pidx ≤ 5 ∧ (exec (init g) ts).pattern 6 = g 6 := by
    refine exec_invariant (fun s => s.pidx ≤ 5 ∧ s.pattern 6 = g 6) ?_ ts _
      ⟨Nat.zero_le _, rfl⟩
    intro t s ⟨h1, h2⟩
    cases t with
    | iter inp =>
      obtain ⟨m1, m2⟩ := main_loop_decoder_vars inp s
      refine ⟨m2 h1, ?_⟩
      show (main_loop inp s).1.pattern 6 = g 6
      rw [m1 6 (by show (6 : Nat) ≠ s.pidx; omega), h2]
    | cmd c =>
      obtain ⟨c1, c2⟩ := console_decoder_vars c s
      refine ⟨?_, ?_⟩
      · show (console c s).1.pidx ≤ 5
        rw [c2]; exact h1
      · show (console c s).1.pattern 6 = g 6
        rw [c1]; exact h2
  refine ⟨key.1, fun inp k hk => (main_loop_decoder_vars inp _).1 k hk, fun inp => ?_, key.2⟩
  exact (main_loop_decoder_vars inp _).1 6 (by show (6 : Nat) ≠ _; omega)

/-! ## C20: the thursday flag and its indicator -/

theorem lor_land_self (x a : Nat) : (x ||| a) &&& a = a := by
  apply Nat.eq_of_testBit_eq
  intro i
  simp only [Nat.testBit_and, Nat.testBit_or]
  cases x.testBit i <;> cases a.testBit i <;> rfl

theorem SameIndicator.keeps {s s' : State} (h : SameIndicator s s') (hs : IndicatorOk s) :
    IndicatorOk s' := by
  obtain ⟨h1, h2⟩ := h
  unfold IndicatorOk
  rw [h1, h2]
  exact hs

theorem open_sameIndicator (s : State) : SameIndicator s (open_ s).1 := by
  obtain ⟨-, -, -, -, o5, -, -⟩ := open_frame s
  refine ⟨o5, ?_⟩
  rw [(open_ports s).2, land_land_cover _ _ _ (by decide), or_land_disjoint _ _ _ (by decide)]

theorem ring_sameIndicator (btn bell : Nat → Nat) (s : State) :
    SameIndicator s (ring btn bell s).1 := by
  obtain ⟨-, -, -, -, r5, -, -⟩ := ring_frame btn bell s
  refine ⟨r5, ?_⟩
  rcases ring_ports btn bell s with ⟨-, h⟩ | ⟨-, h⟩
  · rw [h, land_land_cover _ _ _ (by decide), or_land_disjoint _ _ _ (by decide)]
  · rw [h, land_land_cover _ _ _ (by decide), land_land_cover _ _ _ (by decide),
      or_land_disjoint _ _ _ (by decide), or_land_disjoint _ _ _ (by decide)]

theorem hob_sameIndicator (pinc : Nat) (s : State) :
    SameIndicator s (handle_open_button pinc s).2.1 := by
  by_cases hb : pinc &&& 0x20 = 0
  · rw [hob_pressed _ s hb]
    exact open_sameIndicator s
  · rw [hob_idle _ s hb]
    exact ⟨rfl, rfl⟩

theorem set_thursday_mode_indicatorOk (m : Nat) (hm : m = 0 ∨ m = 1) (s : State) :
    IndicatorOk (set_thursday_mode m s).1 := by
  rcases hm with rfl | rfl
  · left
    exact ⟨rfl, land_clear_bit4 s.PORTC⟩
  · right
    exact ⟨rfl, lor_land_self s.PORTC 0x10⟩

theorem pollThursday_indicatorOk (inp : Input) (s : State) (hs : IndicatorOk s) :
    IndicatorOk (pollThursday inp s).1 := by
  by_cases ht : toggleFires inp s = true
  · rw [pollThursday_fires inp s ht]
    have := set_thursday_mode_indicatorOk (if s.global_thursday_mode = 0 then 1 else 0)
      (by split_ifs <;> simp) s
    exact this
  · rw [pollThursday_rests inp s (by simpa using ht)]
    exact hs

theorem decoder_sameIndicator (inp : Input) (s : State) :
    SameIndicator s (decoder inp s).1 := by
  unfold decoder
  simp only []
  split_ifs
  · exact open_sameIndicator
      { readTCNT1 inp.ticks179 s with
        pattern := store (readTCNT1 inp.ticks179 s).pattern (readTCNT1 inp.ticks179 s).pidx
          (readTCNT1 inp.ticks179 s).TCNT1,
        pidx := 0, TCNT1 := 0 }
  all_goals exact ⟨rfl, rfl⟩

theorem elseBranch_sameIndicator (inp : Input) (s : State) :
    SameIndicator s (elseBranch inp s).1 := by
  unfold elseBranch
  simp only []
  split_ifs
  · exact open_sameIndicator s
  · exact decoder_sameIndicator inp s
  · exact ⟨rfl, rfl⟩

theorem timeoutBranch_indicatorOk (inp : Input) (s : State) (hs : IndicatorOk s) :
    IndicatorOk (timeoutBranch inp s).1 := by
  have hr : IndicatorOk (ring inp.ring_open inp.ring_bell s).1 :=
    (ring_sameIndicator _ _ s).keeps hs
  unfold timeoutBranch
  simp only []
  split_ifs
  · exact set_thursday_mode_indicatorOk 0 (Or.inl rfl) _
  · exact hr
  · exact set_thursday_mode_indicatorOk 0 (Or.inl rfl) _
  · exact hs

theorem main_loop_indicatorOk (inp : Input) (s : State) (hs : IndicatorOk s) :
    IndicatorOk (main_loop inp s).1 := by
  have hp : IndicatorOk (pollButtons inp s).1 :=
    pollThursday_indicatorOk inp _ ((hob_sameIndicator inp.pinc_open s).keeps hs)
  have hrd : IndicatorOk (readTCNT1 inp.ticks159 (pollButtons inp s).1) := hp
  by_cases h : timesOut inp s = true
  · rw [main_loop_timeout_step inp s h]
    exact timeoutBranch_indicatorOk inp _ hrd
  · rw [main_loop_else_step inp s (by simpa using h)]
    exact (elseBranch_sameIndicator inp _).keeps hrd

theorem console_indicatorOk (c : Command) (s : State) (hs : IndicatorOk s) :
    IndicatorOk (console c s).1 := by
  cases c with
  | open_ => exact (open_sameIndicator s).keeps hs
  | help => exact hs
  | thursday_on => exact set_thursday_mode_indicatorOk 1 (Or.inr rfl) s
  | thursday_off => exact set_thursday_mode_indicatorOk 0 (Or.inl rfl) s

/-- C20. After every execution from startup (loop iterations on any inputs, with the
`open()` and `ring()` calls inside them, and the console commands `open`, `help`,
`thursday on`, `thursday off`, each an atomic step) the thursday flag is 0 or 1 and bit
`0x10` of `PORTC` is set if and only if the flag is 1; `open()` and `ring()` themselves leave
both the flag and that bit as they are. -/
theorem indicator_shows_thursday_mode (g : Fin 7 → Nat) (ts : List Step)
    (btn bell : Nat → Nat) :
    ((exec (init g) ts).global_thursday_mode = 0 ∨ (exec (init g) ts).global_thursday_mode = 1) ∧
    ((exec (init g) ts).PORTC &&& 0x10 ≠ 0 ↔ (exec (init g) ts).global_thursday_mode = 1) ∧
    SameIndicator (exec (init g) ts) (open_ (exec (init g) ts)).1 ∧
    SameIndicator (exec (init g) ts) (ring btn bell (exec (init g) ts)).1 := by
  have key : IndicatorOk (exec (init g) ts) := by
    refine exec_invariant IndicatorOk ?_ ts _
      (Or.inl ⟨rfl, by show (0x29 : Nat) &&& 0x10 = 0; decide⟩)
    intro t s hs
    cases t with
    | iter inp => exact main_loop_indicatorOk inp s hs
    | cmd c => exact console_indicatorOk c s hs
  refine ⟨?_, ?_, open_sameIndicator _, ring_sameIndicator _ _ _⟩
  · rcases key with ⟨h, -⟩ | ⟨h, -⟩
    · exact Or.inl h
    · exact Or.inr h
  · rcases key with ⟨h1, h2⟩ | ⟨h1, h2⟩
    · rw [h1, h2]
      exact ⟨fun h => absurd rfl h, fun h => absurd h (by decide)⟩
    · rw [h1, h2]
      exact ⟨fun _ => rfl, fun _ => by decide⟩

/-! ## Lemmas on the receive interrupt -/

theorem put_idx (ch : Nat) (r : Rx) :
    (put ch r).idx = (if r.idx < 16 then r.idx + 1 else 255) := by
  unfold put
  split_ifs with h
  · exact Nat.mod_eq_of_lt (by omega)
  · rfl

theorem put_peek (ch : Nat) (r : Rx) (j : Nat) :
    peek (put ch r).rxbuf j = (if r.idx < 16 ∧ j = r.idx then ch else peek r.rxbuf j) := by
  unfold put
  by_cases h : r.idx < 16
  · simp only [h, dite_true, true_and]
    unfold peek
    by_cases hj : j < 16
    · simp only [hj, dite_true]
      by_cases e : j = r.idx
      · subst e
        simp only [Function.update_same, if_true]
      · have hne : (⟨j, hj⟩ : Fin 16) ≠ ⟨r.idx, h⟩ := fun x => e (congrArg Fin.val x)
        simp only [Function.update_noteq hne, e, if_false]
    · have e : ¬ j = r.idx := by omega
      simp only [hj, dite_false, e, if_false]
  · simp only [h, dite_false, false_and, if_false]

theorem isr_plain (ch : Nat) (r : Rx) (s : State) (h : ch ≠ 13 ∧ ch ≠ 10) :
    isr ch r s = (put ch r, s, []) := by
  have : ¬ (ch = 13 ∨ ch = 10) := fun x => x.elim h.1 h.2
  simp only [isr, this, if_false]

theorem isr_terminator (t : Nat) (r : Rx) (s : State) (h : t = 13 ∨ t = 10) :
    isr t r s =
      match recognise (put t r).rxbuf with
      | some c => ({ put t r with idx := 0 }, (console c s).1, (console c s).2)
      | none => ({ put t r with idx := 0 }, s, []) := by
  simp only [isr, h, if_true]

theorem feed_append (a b : List Nat) (r : Rx) (s : State) :
    feed (a ++ b) r s =
      ((feed b (feed a r s).1 (feed a r s).2.1).1, (feed b (feed a r s).1 (feed a r s).2.1).2.1,
        (feed a r s).2.2 ++ (feed b (feed a r s).1 (feed a r s).2.1).2.2) := by
  induction a generalizing r s with
  | nil => simp [feed]
  | cons c cs ih => simp [feed, ih, List.append_assoc]

/-- Bytes that are no line terminator only fill the buffer: the `j`-th of them lands in
slot `idx + j` while that is below 16, and the index ends at `idx + length` while that is
at most 16 and at 16 or above otherwise. -/
theorem feed_plain (bytes : List Nat) : ∀ (r : Rx) (s : State),
    (∀ c ∈ bytes, c ≠ 13 ∧ c ≠ 10) → (r.idx ≤ 16 ∨ r.idx = 255) →
    (feed bytes r s).2 = (s, []) ∧
    (∀ j, j < bytes.length → r.idx + j < 16 →
      peek (feed bytes r s).1.rxbuf (r.idx + j) = bytes.getD j 0) ∧
    (∀ j, j < r.idx → peek (feed bytes r s).1.rxbuf j = peek r.rxbuf j) ∧
    (r.idx + bytes.length ≤ 16 → (feed bytes r s).1.idx = r.idx + bytes.length) ∧
    (16 < r.idx + bytes.length → 16 ≤ (feed bytes r s).1.idx) := by
  induction bytes with
  | nil =>
    intro r s _ hr
    refine ⟨rfl, fun j hj => absurd hj (Nat.not_lt_zero j), fun _ _ => rfl, fun _ => rfl, ?_⟩
    intro h
    show 16 ≤ r.idx
    simp only [List.length_nil, Nat.add_zero] at h
    omega
  | cons c cs ih =>
    intro r s hb hr
    have hc := hb c (List.mem_cons_self c cs)
    have hcs : ∀ x ∈ cs, x ≠ 13 ∧ x ≠ 10 := fun x hx => hb x (List.mem_cons_of_mem c hx)
    have hpi := put_idx c r
    have hr' : (put c r).idx ≤ 16 ∨ (put c r).idx = 255 := by
      rw [hpi]; split_ifs <;> omega
    obtain ⟨i1, i2, i3, i4, i5⟩ := ih (put c r) s hcs hr'
    have hf : feed (c :: cs) r s = ((feed cs (put c r) s).1, (feed cs (put c r) s).2.1,
        [] ++ (feed cs (put c r) s).2.2) := by
      simp only [feed, isr_plain c r s hc]
    rw [hf]
    refine ⟨?_, ?_, ?_, ?_, ?_⟩
    · show ((feed cs (put c r) s).2.1, [] ++ (feed cs (put c r) s).2.2) = (s, [])
      rw [List.nil_append]
      exact i1
    · intro j hj hlt
      show peek (feed cs (put c r) s).1.rxbuf (r.idx + j) = _
      have hlt16 : r.idx < 16 := by omega
      rw [hpi, if_pos hlt16] at i2 i3
      cases j with
      | zero =>
        rw [Nat.add_zero, i3 r.idx (Nat.lt_succ_self _), put_peek, if_pos ⟨hlt16, rfl⟩]
        rfl
      | succ j =>
        have := i2 j (by simpa using hj) (by omega)
        rw [show r.idx + (j + 1) = r.idx + 1 + j by omega, this]
        rfl
    · intro j hj
      show peek (feed cs (put c r) s).1.rxbuf j = _
      have hj' : j < (put c r).idx := by rw [hpi]; split_ifs <;> omega
      rw [i3 j hj', put_peek, if_neg (by omega)]
    · intro hle
      show (feed cs (put c r) s).1.idx = _
      have hlt16 : r.idx < 16 := by simp only [List.length_cons] at hle; omega
      rw [hpi, if_pos hlt16] at i4
      simp only [List.length_cons] at hle ⊢
      rw [i4 (by omega)]
      omega
    · intro hgt
      show 16 ≤ (feed cs (put c r) s).1.idx
      simp only [List.length_cons] at hgt
      by_cases hlt16 : r.idx < 16
      · rw [hpi, if_pos hlt16] at i4 i5
        by_cases hle : r.idx + 1 + cs.length ≤ 16
        · rw [i4 hle]; omega
        · exact i5 (by omega)
      · rw [hpi, if_neg hlt16] at i4 i5
        exact i5 (by omega)

theorem strcmp0_prefix (lit : List Nat) : ∀ (buf : Fin 16 → Nat) (i : Nat),
    strcmp0 lit buf i = true → ∀ j, j < lit.length → peek buf (i + j) = lit.getD j 0 := by
  induction lit with
  | nil => intro _ _ _ j hj; exact absurd hj (Nat.not_lt_zero j)
  | cons c cs ih =>
    intro buf i h j hj
    simp only [strcmp0, Bool.and_eq_true, beq_iff_eq] at h
    cases j with
    | zero => rw [Nat.add_zero, h.1]; rfl
    | succ j =>
      have := ih buf (i + 1) h.2 j (by simpa using hj)
      rw [show i + (j + 1) = i + 1 + j by omega, this]
      rfl

theorem getD_mem_of_lt (l : List Nat) : ∀ j, j < l.length → l.getD j 0 ∈ l := by
  induction l with
  | nil => intro j hj; exact absurd hj (Nat.not_lt_zero j)
  | cons c cs ih =>
    intro j hj
    cases j with
    | zero => exact List.mem_cons_self c cs
    | succ j => exact List.mem_cons_of_mem c (ih j (by simpa using hj))

theorem eq_of_getD_eq (l : List Nat) : ∀ l' : List Nat, l.length = l'.length →
    (∀ j, j < l.length → l.getD j 0 = l'.getD j 0) → l = l' := by
  induction l with
  | nil =>
    intro l' hl _
    cases l' with
    | nil => rfl
    | cons _ _ => simp at hl
  | cons c cs ih =>
    intro l' hl h
    cases l' with
    | nil => simp at hl
    | cons c' cs' =>
      have h0 : c = c' := h 0 (Nat.succ_pos _)
      have ht := ih cs' (by simpa using hl) (fun j hj => h (j + 1) (by simpa using hj))
      rw [h0, ht]

/-- A line can pass the `strcmp` test against a command literal only if its content is
that command: a shorter line has its terminator where the literal has a letter, a longer
one has a non-terminator where the literal has `'\r'`. -/
theorem strcmp0_line (cmd content : List Nat) (t : Nat) (buf : Fin 16 → Nat)
    (hcmd : ∀ c ∈ cmd, c ≠ 13 ∧ c ≠ 10) (hlen : cmd.length < 16)
    (hcontent : ∀ c ∈ content, c ≠ 13 ∧ c ≠ 10) (ht : t = 13 ∨ t = 10)
    (hfill : ∀ j, j < content.length → j < 16 → peek buf j = content.getD j 0)
    (hterm : content.length < 16 → peek buf content.length = t)
    (hm : strcmp0 (cmd ++ [13]) buf 0 = true) : content = cmd := by
  have hp := strcmp0_prefix (cmd ++ [13]) buf 0 hm
  have hletters : ∀ j, j < cmd.length → peek buf j = cmd.getD j 0 := by
    intro j hj
    have := hp j (by rw [List.length_append]; exact Nat.lt_succ_of_lt hj)
    rwa [Nat.zero_add, List.getD_append _ _ _ _ hj] at this
  have hcr : peek buf cmd.length = 13 := by
    have := hp cmd.length (by rw [List.length_append]; exact Nat.lt_succ_self _)
    rwa [Nat.zero_add, List.getD_append_right _ _ _ _ (Nat.le_refl _), Nat.sub_self] at this
  rcases Nat.lt_trichotomy content.length cmd.length with hk | hk | hk
  · exfalso
    have h1 := hterm (by omega)
    have h2 := hletters content.length hk
    have hmem := getD_mem_of_lt cmd content.length hk
    rw [← h2, h1] at hmem
    have := hcmd t hmem
    rcases ht with rfl | rfl
    · exact this.1 rfl
    · exact this.2 rfl
  · exact eq_of_getD_eq content cmd hk (fun j hj => by
      rw [← hfill j hj (by omega), hletters j (by omega)])
  · exfalso
    have h1 := hfill cmd.length hk hlen
    have hmem := getD_mem_of_lt content cmd.length hk
    rw [← h1, hcr] at hmem
    exact (hcontent 13 hmem).1 rfl

/-- The buffer after a whole line received from the start of a line: the content sits at
the front (as far as it fits), the terminator right after it if there is room, and the
handler's reaction is the one `recognise` picks for that buffer. -/
theorem feed_line (content : List Nat) (t : Nat) (r : Rx) (s : State)
    (hidx : r.idx = 0) (hcontent : ∀ c ∈ content, c ≠ 13 ∧ c ≠ 10) (ht : t = 13 ∨ t = 10) :
    (feed (content ++ [t]) r s).1.idx = 0 ∧
    (∀ j, j < content.length → j < 16 →
      peek (put t (feed content r s).1).rxbuf j = content.getD j 0) ∧
    (content.length < 16 → peek (put t (feed content r s).1).rxbuf content.length = t) ∧
    (feed (content ++ [t]) r s).2 =
      (match recognise (put t (feed content r s).1).rxbuf with
       | some c => ((console c s).1, (console c s).2)
       | none => (s, [])) := by
  obtain ⟨f1, f2, -, f4, f5⟩ := feed_plain content r s hcontent (Or.inl (by omega))
  rw [hidx] at f2 f4 f5
  simp only [Nat.zero_add] at f2 f4 f5
  have hs : (feed content r s).2.1 = s := congrArg Prod.fst f1
  have htr : (feed content r s).2.2 = [] := congrArg Prod.snd f1
  have hfeed : feed (content ++ [t]) r s =
      ((isr t (feed content r s).1 s).1, (isr t (feed content r s).1 s).2.1,
        (isr t (feed content r s).1 s).2.2) := by
    rw [feed_append, hs, htr]
    simp [feed]
  have hisr := isr_terminator t (feed content r s).1 s ht
  refine ⟨?_, ?_, ?_, ?_⟩
  · rw [hfeed, hisr]
    cases recognise (put t (feed content r s).1).rxbuf <;> rfl
  · intro j hj h16
    rw [put_peek]
    by_cases hle : content.length ≤ 16
    · rw [f4 hle, if_neg (by omega)]
      exact f2 j hj h16
    · have := f5 (by omega)
      rw [if_neg (by omega)]
      exact f2 j hj h16
  · intro hlt
    rw [put_peek, f4 (by omega), if_pos ⟨hlt, rfl⟩]
  · rw [hfeed, hisr]
    cases recognise (put t (feed content r s).1).rxbuf <;> rfl

/-! ## C14: the console acts on exact commands only -/

/-- C14. For every state of the handler at the start of a line (`idx = 0`, any buffer
contents left by earlier lines) and every line, of any length, whose content has no
terminator byte and is not exactly `open`, `help`, `thursday on` or `thursday off`,
receiving the content followed by a terminator (`'\r'` or `'\n'`) emits nothing and leaves
the program state as it was: neither `open()` nor `tx_help()` nor `set_thursday_mode()` is
invoked; and the handler is again at the start of a line. -/
theorem console_ignores_other_lines (r : Rx) (s : State) (content : List Nat) (t : Nat)
    (hidx : r.idx = 0) (hcontent : ∀ c ∈ content, c ≠ 13 ∧ c ≠ 10) (ht : t = 13 ∨ t = 10)
    (hother : content ≠ cmd_open ∧ content ≠ cmd_help ∧ content ≠ cmd_thursday_on ∧
      content ≠ cmd_thursday_off) :
    (feed (content ++ [t]) r s).2.2 = [] ∧
    (feed (content ++ [t]) r s).2.1 = s ∧
    (feed (content ++ [t]) r s).1.idx = 0 := by
  obtain ⟨l1, l2, l3, l4⟩ := feed_line content t r s hidx hcontent ht
  have no : ∀ cmd : List Nat, (∀ c ∈ cmd, c ≠ 13 ∧ c ≠ 10) → cmd.length < 16 → content ≠ cmd →
      strcmp0 (cmd ++ [13]) (put t (feed content r s).1).rxbuf 0 = false := by
    intro cmd hc hl hne
    by_contra h
    exact hne (strcmp0_line cmd content t _ hc hl hcontent ht l2 l3 (by simpa using h))
  have h1 := no cmd_open (by decide) (by decide) hother.1
  have h2 := no cmd_help (by decide) (by decide) hother.2.1
  have h3 := no cmd_thursday_on (by decide) (by decide) hother.2.2.1
  have h4 := no cmd_thursday_off (by decide) (by decide) hother.2.2.2
  have hrec : recognise (put t (feed content r s).1).rxbuf = none := by
    simp only [recognise, h1, h2, h3, h4, Bool.false_eq_true, if_false]
  rw [hrec] at l4
  exact ⟨congrArg Prod.snd l4, congrArg Prod.fst l4, l1⟩

/-- C14 at concrete inputs: after `thursday on` was received, the line `ope` and a line
of seventeen `a` are both ignored. -/
theorem console_ignores_other_lines_witness :
    (feed ([111, 112, 101] ++ [13]) (rxAfter (cmd_thursday_on ++ [13])) thursdayOn).2.2 = [] ∧
    (feed (longLine ++ [10]) (rxAfter (cmd_thursday_on ++ [13])) thursdayOn).2.2 = [] :=
  ⟨(console_ignores_other_lines (rxAfter (cmd_thursday_on ++ [13])) thursdayOn
      [111, 112, 101] 13 (by decide) (by decide) (by decide) (by decide)).1,
    (console_ignores_other_lines (rxAfter (cmd_thursday_on ++ [13])) thursdayOn
      longLine 10 (by decide) (by decide) (by decide) (by decide)).1⟩

/-! ## C13 and C15: commands after an earlier line -/

/-- C13, evaluated on the code.  On the zeroed buffer of startup, `open` followed by
`'\r'` runs `open()` once.  After the line `thursday on` the handler is at the start of a
line (`idx = 0`), yet `open` followed by `'\r'` does nothing: the buffer then holds
`open\rday on\r`, and `strcmp` wants a 0 after `open\r`.  Likewise `thursday on` is not
recognised after `thursday off`, nor `help` after `thursday on`.  And on the zeroed buffer
`open` followed by `'\n'`, which the handler also takes as a terminator, does nothing. -/
theorem stale_bytes_hide_command :
    (feed (cmd_open ++ [13]) rxStart (init fun _ => 0)).2.2.count Ev.openCall = 1 ∧
    (rxAfter (cmd_thursday_on ++ [13])).idx = 0 ∧
    (feed (cmd_open ++ [13]) (rxAfter (cmd_thursday_on ++ [13])) (init fun _ => 0)).2.2 = [] ∧
    (feed (cmd_help ++ [13]) (rxAfter (cmd_thursday_on ++ [13])) (init fun _ => 0)).2.2 = [] ∧
    (rxAfter (cmd_thursday_off ++ [13])).idx = 0 ∧
    (feed (cmd_thursday_on ++ [13]) (rxAfter (cmd_thursday_off ++ [13]))
      (init fun _ => 0)).2.2 = [] ∧
    (feed (cmd_open ++ [10]) rxStart (init fun _ => 0)).2.2 = [] := by
  refine ⟨by decide, by decide, by decide, by decide, by decide, by decide, by decide⟩

/-- C15, evaluated on the code.  A line of seventeen `a` followed by `'\r'` overflows the
16-byte buffer; it emits nothing and leaves the handler at the start of a line.  But the
sixteen stored bytes stay in the buffer, and none of the four commands sent next is
recognised: each emits nothing. -/
theorem overflow_line_blocks_next_command :
    (feed (longLine ++ [13]) rxStart (init fun _ => 0)).2.2 = [] ∧
    (rxAfter (longLine ++ [13])).idx = 0 ∧
    (feed (cmd_open ++ [13]) (rxAfter (longLine ++ [13])) (init fun _ => 0)).2.2 = [] ∧
    (feed (cmd_help ++ [13]) (rxAfter (longLine ++ [13])) (init fun _ => 0)).2.2 = [] ∧
    (feed (cmd_thursday_on ++ [13]) (rxAfter (longLine ++ [13])) (init fun _ => 0)).2.2 = [] ∧
    (feed (cmd_thursday_off ++ [13]) (rxAfter (longLine ++ [13])) (init fun _ => 0)).2.2 = [] := by
  refine ⟨by decide, by decide, by decide, by decide, by decide, by decide⟩

/-! ## C12: outputs on return from `open()` and `ring()` -/

theorem open_relayOff (s : State) : RelayOff (open_ s).1 := by
  unfold RelayOff
  rw [(open_ports s).2]
  exact land_land_zero _ _ _ (by decide)

theorem ring_relayOff (btn bell : Nat → Nat) (s : State) (h : RelayOff s) :
    RelayOff (ring btn bell s).1 := by
  unfold RelayOff at h ⊢
  rcases ring_ports btn bell s with ⟨-, e⟩ | ⟨-, e⟩
  · rw [e, land_land_cover _ _ _ (by decide), or_land_disjoint _ _ _ (by decide)]
    exact h
  · rw [e, land_land_cover _ _ _ (by decide)]
    exact land_land_zero _ _ _ (by decide)

theorem set_thursday_mode_relayOff (m : Nat) (s : State) (h : RelayOff s) :
    RelayOff (set_thursday_mode m s).1 := by
  unfold RelayOff at h ⊢
  by_cases hm : m = 0
  · simp only [set_thursday_mode, ne_eq, hm, not_true_eq_false, if_false]
    rw [land_land_cover _ _ _ (by decide)]
    exact h
  · simp only [set_thursday_mode, ne_eq, hm, not_false_eq_true, if_true]
    rw [or_land_disjoint _ _ _ (by decide)]
    exact h

theorem hob_relayOff (pinc : Nat) (s : State) (h : RelayOff s) :
    RelayOff (handle_open_button pinc s).2.1 := by
  by_cases hb : pinc &&& 0x20 = 0
  · rw [hob_pressed _ s hb]
    exact open_relayOff s
  · rw [hob_idle _ s hb]
    exact h

theorem pollThursday_relayOff (inp : Input) (s : State) (h : RelayOff s) :
    RelayOff (pollThursday inp s).1 := by
  by_cases ht : toggleFires inp s = true
  · rw [pollThursday_fires inp s ht]
    exact set_thursday_mode_relayOff _ s h
  · rw [pollThursday_rests inp s (by simpa using ht)]
    exact h

theorem pollButtons_relayOff (inp : Input) (s : State) (h : RelayOff s) :
    RelayOff (pollButtons inp s).1 :=
  pollThursday_relayOff inp _ (hob_relayOff inp.pinc_open s h)

theorem decoder_relayOff (inp : Input) (s : State) (h : RelayOff s) :
    RelayOff (decoder inp s).1 := by
  unfold decoder
  simp only []
  split_ifs
  · exact open_relayOff _
  all_goals exact h

theorem elseBranch_relayOff (inp : Input) (s : State) (h : RelayOff s) :
    RelayOff (elseBranch inp s).1 := by
  unfold elseBranch
  simp only []
  split_ifs
  · exact open_relayOff s
  · exact decoder_relayOff inp s h
  · exact h

theorem timeoutBranch_relayOff (inp : Input) (s : State) (h : RelayOff s) :
    RelayOff (timeoutBranch inp s).1 := by
  have hr : RelayOff (ring inp.ring_open inp.ring_bell s).1 := ring_relayOff _ _ s h
  unfold timeoutBranch
  simp only []
  split_ifs
  · exact set_thursday_mode_relayOff 0 _ hr
  · exact hr
  · exact set_thursday_mode_relayOff 0 _ h
  · exact h

theorem main_loop_relayOff (inp : Input) (s : State) (h : RelayOff s) :
    RelayOff (main_loop inp s).1 := by
  have hrd : RelayOff (readTCNT1 inp.ticks159 (pollButtons inp s).1) :=
    pollButtons_relayOff inp s h
  by_cases hto : timesOut inp s = true
  · rw [main_loop_timeout_step inp s hto]
    exact timeoutBranch_relayOff inp _ hrd
  · rw [main_loop_else_step inp s (by simpa using hto)]
    exact elseBranch_relayOff inp _ hrd

theorem console_relayOff (c : Command) (s : State) (h : RelayOff s) :
    RelayOff (console c s).1 := by
  cases c with
  | open_ => exact open_relayOff s
  | help => exact h
  | thursday_on => exact set_thursday_mode_relayOff 1 s h
  | thursday_off => exact set_thursday_mode_relayOff 0 s h

/-- Outside `open()` the opener relay is off: after every execution from startup bit
`0x02` of `PORTC` is clear. -/
theorem exec_relayOff (g : Fin 7 → Nat) (ts : List Step) : RelayOff (exec (init g) ts) := by
  refine exec_invariant RelayOff ?_ ts _ (by show (0x29 : Nat) &&& 0x02 = 0; decide)
  intro t s h
  cases t with
  | iter inp => exact main_loop_relayOff inp s h
  | cmd c => exact console_relayOff c s h

/-- C12. For every state `s` and every input trace: on return from `open()` the
opener-relay bit `0x02` of `PORTC` is clear and `PORTB` (the status LED) is as on entry; on
return from `ring()`, by whichever path, the ring-relay bit `0x04` of `PORTC` and the
status-LED bit `0x20` of `PORTB` are clear; neither action changes the thursday indicator
bit `0x10` of `PORTC`.  The opener-relay bit is clear on return from `ring()` whenever it
was clear on entry, and it is clear on entry in every state the program can be in: after
every execution from startup (any initial contents `g`, any steps `ts`), and at the one
call site of `ring()`, the timeout branch of a next iteration on any input `inp`.  So on
every execution `ring()` returns with the ring-relay, status-LED and opener-relay bits all
clear. -/
theorem outputs_deasserted_on_return (g : Fin 7 → Nat) (ts : List Step) (inp : Input)
    (btn bell : Nat → Nat) (s : State) :
    (open_ s).1.PORTC &&& 0x02 = 0 ∧
    (open_ s).1.PORTB = s.PORTB ∧
    (open_ s).1.PORTC &&& 0x10 = s.PORTC &&& 0x10 ∧
    (ring btn bell s).1.PORTC &&& 0x04 = 0 ∧
    (ring btn bell s).1.PORTB &&& 0x20 = 0 ∧
    (ring btn bell s).1.PORTC &&& 0x10 = s.PORTC &&& 0x10 ∧
    (s.PORTC &&& 0x02 = 0 → (ring btn bell s).1.PORTC &&& 0x02 = 0) ∧
    (exec (init g) ts).PORTC &&& 0x02 = 0 ∧
    (ring btn bell (exec (init g) ts)).1.PORTC &&& 0x02 = 0 ∧
    (readTCNT1 inp.ticks159 (pollButtons inp (exec (init g) ts)).1).PORTC &&& 0x02 = 0 ∧
    (ring inp.ring_open inp.ring_bell
      (readTCNT1 inp.ticks159 (pollButtons inp (exec (init g) ts)).1)).1.PORTC &&& 0x02 = 0 ∧
    (ring inp.ring_open inp.ring_bell
      (readTCNT1 inp.ticks159 (pollButtons inp (exec (init g) ts)).1)).1.PORTC &&& 0x04 = 0 ∧
    (ring inp.ring_open inp.ring_bell
      (readTCNT1 inp.ticks159 (pollButtons inp (exec (init g) ts)).1)).1.PORTB &&& 0x20 = 0 := by
  obtain ⟨o1, o2⟩ := open_ports s
  have hex := exec_relayOff g ts
  have hsite : RelayOff (readTCNT1 inp.ticks159 (pollButtons inp (exec (init g) ts)).1) :=
    pollButtons_relayOff inp _ hex
  have hrelay : ∀ (b l : Nat → Nat) (t : State), (ring b l t).1.PORTC &&& 0x04 = 0 := by
    intro b l t
    rcases ring_ports b l t with ⟨-, h⟩ | ⟨-, h⟩ <;> rw [h] <;>
      exact land_land_zero _ _ _ (by decide)
  have hled : ∀ (b l : Nat → Nat) (t : State), (ring b l t).1.PORTB &&& 0x20 = 0 := by
    intro b l t
    rcases ring_ports b l t with ⟨h, -⟩ | ⟨h, -⟩ <;> rw [h] <;>
      exact land_land_zero _ _ _ (by decide)
  refine ⟨open_relayOff s, o1, (open_sameIndicator s).2, hrelay _ _ _, hled _ _ _,
    (ring_sameIndicator btn bell s).2, fun h => ring_relayOff btn bell s h, hex,
    ring_relayOff btn bell _ hex, hsite, ring_relayOff _ _ _ hsite, hrelay _ _ _, hled _ _ _⟩

/-- C12 at a concrete execution: a press is accepted, then `ring()` runs from that state
with the manual-open button pressed at its first poll, so by the manual-open exit; on
return the opener-relay, ring-relay and status-LED bits are clear. -/
theorem outputs_deasserted_on_return_witness :
    (exec (init fun _ => 0) [Step.iter (quiet 0 200)]).pidx = 1 ∧
    (ring (fun _ => 0x09) (fun _ => 0x29)
      (exec (init fun _ => 0) [Step.iter (quiet 0 200)])).1.PORTC &&& 0x02 = 0 ∧
    (ring (fun _ => 0x09) (fun _ => 0x29)
      (exec (init fun _ => 0) [Step.iter (quiet 0 200)])).1.PORTC &&& 0x04 = 0 ∧
    (ring (fun _ => 0x09) (fun _ => 0x29)
      (exec (init fun _ => 0) [Step.iter (quiet 0 200)])).1.PORTB &&& 0x20 = 0 ∧
    (ring (fun _ => 0x09) (fun _ => 0x29)
      (exec (init fun _ => 0) [Step.iter (quiet 0 200)])).2.take 4
      = [Ev.ringCall, Ev.tx Note.RING, Ev.tx Note.OPEN, Ev.openCall] :=
  have h := outputs_deasserted_on_return (fun _ => 0) [Step.iter (quiet 0 200)]
    (quiet 1 62501) (fun _ => 0x09) (fun _ => 0x29)
    (exec (init fun _ => 0) [Step.iter (quiet 0 200)])
  ⟨by decide, h.2.2.2.2.2.2.2.2.1, h.2.2.2.1, h.2.2.2.2.1, by decide⟩

end Klingel
